import Mathlib

/-!
# LazzyQuant market watcher: session filtering and scheduled persistence

A shallow embedding of `market_watcher/market_watcher.cpp`:

* `QTime` models the part of Qt's time-of-day class the file uses
  (construction from h/m/s, comparison, `addSecs`, `secsTo`);
* `charToDigit`, `isWithinRange` are the two static helpers;
* `MarketWatcher` is the object state, and `processDepthMarketData`,
  `checkTradingTimes`, `prepareSaveDepthMarketData`,
  `saveDepthMarketDataToFile` are its member functions, written as
  state-passing functions that also return what they emit or write.
-/

namespace LazzyQuant

/-! ## Qt's `QTime` -/

/-- Number of milliseconds in a day (Qt: `MSECS_PER_DAY`). -/
def MSECS_PER_DAY : Int := 86400000

/-- Qt time of day, as in Qt 5: `mds` is the number of milliseconds since
midnight, and `-1` (Qt: `NullTime`) for a null time. -/
structure QTime where
  mds : Int
deriving DecidableEq, Repr

namespace QTime

/-- Default constructed `QTime()`: the null time. -/
def null : QTime := ⟨-1⟩

/-- Qt `QTime::isValid() const`: `mds > NullTime && mds < MSECS_PER_DAY`. -/
def isValid (t : QTime) : Bool :=
  decide (-1 < t.mds) && decide (t.mds < MSECS_PER_DAY)

/-- Qt static `QTime::isValid(h, m, s, ms)`; the casts to `uint` of the
original make every negative argument fail the test. -/
def isValidHMS (h m s ms : Int) : Bool :=
  decide (0 ≤ h ∧ h < 24) && decide (0 ≤ m ∧ m < 60) &&
    decide (0 ≤ s ∧ s < 60) && decide (0 ≤ ms ∧ ms < 1000)

/-- Constructor `QTime(h, m, s)` (through `setHMS` with `ms = 0`): a null
time when the arguments are out of range. -/
def ofHMS (h m s : Int) : QTime :=
  if isValidHMS h m s 0 then ⟨(h * 3600 + m * 60 + s) * 1000⟩ else null

/-- Qt `ds()`: the milliseconds, with a null time read as 0. -/
def ds (t : QTime) : Int := if t.mds = -1 then 0 else t.mds

/-- Qt `QTime::addMSecs`. The C++ `/` and `%` truncate towards zero, hence
`Int.tdiv` and `Int.tmod`. -/
def addMSecs (t : QTime) (ms : Int) : QTime :=
  if t.isValid then
    if ms < 0 then
      let negdays := Int.tdiv (MSECS_PER_DAY - ms) MSECS_PER_DAY
      ⟨Int.tmod (t.ds + ms + negdays * MSECS_PER_DAY) MSECS_PER_DAY⟩
    else
      ⟨Int.tmod (t.ds + ms) MSECS_PER_DAY⟩
  else null

/-- Qt `QTime::addSecs(s)`, which is `addMSecs(s * 1000)`. -/
def addSecs (t : QTime) (s : Int) : QTime := t.addMSecs (s * 1000)

/-- Qt `QTime::secsTo`: 0 when either time is invalid, else the difference
of the whole seconds. -/
def secsTo (a b : QTime) : Int :=
  if !a.isValid || !b.isValid then 0
  else Int.tdiv b.ds 1000 - Int.tdiv a.ds 1000

instance : LT QTime := ⟨fun a b => a.mds < b.mds⟩
instance : LE QTime := ⟨fun a b => a.mds ≤ b.mds⟩
instance (a b : QTime) : Decidable (a < b) := inferInstanceAs (Decidable (a.mds < b.mds))
instance (a b : QTime) : Decidable (a ≤ b) := inferInstanceAs (Decidable (a.mds ≤ b.mds))

end QTime

/-! ## The static helpers -/

/-- Source `charToDigit`: `quint8(10 * (ten - '0') + one - '0')`. Characters
are their integer codes; the conversion to `quint8` is reduction modulo 256. -/
def charToDigit (ten one : Int) : Int := (10 * (ten - 48) + one - 48) % 256

/-- Source `isWithinRange`. -/
def isWithinRange (t rangeStart rangeEnd : QTime) : Bool :=
  if rangeStart < rangeEnd then
    decide (rangeStart ≤ t) && decide (t ≤ rangeEnd)
  else
    decide (rangeStart ≤ t) || decide (t ≤ rangeEnd)

/-! ## Data carried by the watcher -/

/-- The fields of the vendor record `CThostFtdcDepthMarketDataField` that the
file reads. `UpdateTime` is the `char[9]` text `HH:MM:SS`, as character codes;
prices are only copied, never computed with, and are kept as integers. -/
structure CThostFtdcDepthMarketDataField where
  InstrumentID : String
  UpdateTime : List Int
  LastPrice : Int
  Volume : Int
  AskPrice1 : Int
  AskVolume1 : Int
  BidPrice1 : Int
  BidVolume1 : Int
  AskPrice2 : Int
  AskVolume2 : Int
  BidPrice2 : Int
  BidVolume2 : Int
deriving DecidableEq, Repr

/-- The arguments of one emission of the signal `newMarketData`. -/
structure NewMarketData where
  instrumentID : String
  time : Int
  lastPrice : Int
  volume : Int
  askPrice1 : Int
  askVolume1 : Int
  bidPrice1 : Int
  bidVolume1 : Int
  askPrice2 : Int
  askVolume2 : Int
  bidPrice2 : Int
  bidVolume2 : Int
deriving DecidableEq, Repr

/-- One trading session `QPair<QTime, QTime>`: start and end. -/
abbrev TradeTime := QTime × QTime

/-- The members of `MarketWatcher` that the modelled functions use. A `QMap`
that is only read and written through `operator[]` is a total function, an
absent key standing for the default (empty) value; `subscribeSet` is listed in
the order in which the `QSet` happens to be iterated. -/
structure MarketWatcher where
  saveDepthMarketData : Bool
  saveDepthMarketDataPath : String
  subscribeSet : List String
  tradingTimeMap : String → List TradeTime
  depthMarketDataListMap : String → List CThostFtdcDepthMarketDataField
  instrumentsToSave : List (List String)
  saveBarTimePoints : List QTime

/-! ## `processDepthMarketData` -/

/-- Local `hour` of `processDepthMarketData`. -/
def hourOf (d : CThostFtdcDepthMarketDataField) : Int :=
  charToDigit (d.UpdateTime.getD 0 0) (d.UpdateTime.getD 1 0)

/-- Local `minute` of `processDepthMarketData`. -/
def minuteOf (d : CThostFtdcDepthMarketDataField) : Int :=
  charToDigit (d.UpdateTime.getD 3 0) (d.UpdateTime.getD 4 0)

/-- Local `second` of `processDepthMarketData`. -/
def secondOf (d : CThostFtdcDepthMarketDataField) : Int :=
  charToDigit (d.UpdateTime.getD 6 0) (d.UpdateTime.getD 7 0)

/-- Local `time` of `processDepthMarketData`: `QTime time(hour, minute, second)`. -/
def tickTime (d : CThostFtdcDepthMarketDataField) : QTime :=
  QTime.ofHMS (hourOf d) (minuteOf d) (secondOf d)

/-- The signal emitted for a tick accepted by the session `tradetime`. -/
def emitNewMarketData (d : CThostFtdcDepthMarketDataField) (time : QTime)
    (tradetime : TradeTime) : NewMarketData :=
  let emitTime := if time = tradetime.2 then time.addSecs (-1) else time
  { instrumentID := d.InstrumentID
    time := QTime.secsTo (QTime.ofHMS 0 0 0) emitTime
    lastPrice := d.LastPrice
    volume := d.Volume
    askPrice1 := d.AskPrice1
    askVolume1 := d.AskVolume1
    bidPrice1 := d.BidPrice1
    bidVolume1 := d.BidVolume1
    askPrice2 := d.AskPrice2
    askVolume2 := d.AskVolume2
    bidPrice2 := d.BidPrice2
    bidVolume2 := d.BidVolume2 }

/-- The `foreach` over the sessions of the instrument, with its `break`: the
first session containing `time` emits the signal and, when
`saveDepthMarketData` is set, appends the record to the instrument's buffer. -/
def processLoop (w : MarketWatcher) (d : CThostFtdcDepthMarketDataField) (time : QTime) :
    List TradeTime → MarketWatcher × List NewMarketData
  | [] => (w, [])
  | tradetime :: rest =>
    if isWithinRange time tradetime.1 tradetime.2 then
      let w1 :=
        if w.saveDepthMarketData then
          { w with
            depthMarketDataListMap :=
              Function.update w.depthMarketDataListMap d.InstrumentID
                (w.depthMarketDataListMap d.InstrumentID ++ [d]) }
        else w
      (w1, [emitNewMarketData d time tradetime])
    else processLoop w d time rest

/-- Source `MarketWatcher::processDepthMarketData`: the new state and the
list of emitted `newMarketData` signals. -/
def MarketWatcher.processDepthMarketData (w : MarketWatcher)
    (d : CThostFtdcDepthMarketDataField) : MarketWatcher × List NewMarketData :=
  processLoop w d (tickTime d) (w.tradingTimeMap d.InstrumentID)

/-- Feeding a sequence of ticks, in arrival order, to `processDepthMarketData`. -/
def MarketWatcher.processAll (w : MarketWatcher) :
    List CThostFtdcDepthMarketDataField → MarketWatcher
  | [] => w
  | d :: ds => MarketWatcher.processAll (w.processDepthMarketData d).1 ds

/-! ## `checkTradingTimes` -/

/-- The record `Market` (declared in `market.h`), with the three members
`checkTradingTimes` reads: the instrument codes traded on the market, its
instrument-id patterns and, index by index, the session list of each pattern. -/
structure Market where
  codes : List String
  regexs : List String
  tradetimeses : List (List TradeTime)

/-- The `for` loop over `market.regexs`: the index of the first pattern that
matches `instrumentID` exactly, counting from `i`. -/
def regexLoop (exactMatch : String → String → Bool) (instrumentID : String) :
    List String → Nat → Option Nat
  | [], _ => none
  | regex :: rest, i =>
    if exactMatch regex instrumentID then some i
    else regexLoop exactMatch instrumentID rest (i + 1)

/-- The two nested `foreach` loops of `checkTradingTimes` over the markets
and their codes. The result is `none` when `market.tradetimeses[i]` is indexed
out of range, which the source does not guard against. -/
def checkTradingTimesLoop (exactMatch : String → String → Bool) (instrument : String)
    (w : MarketWatcher) (instrumentID : String) :
    List Market → Option (MarketWatcher × Bool)
  | [] => some (w, false)
  | market :: rest =>
    if market.codes.contains instrument then
      match regexLoop exactMatch instrumentID market.regexs 0 with
      | some i =>
        match market.tradetimeses[i]? with
        | some tradetimes =>
          some ({ w with
                  tradingTimeMap :=
                    Function.update w.tradingTimeMap instrumentID tradetimes }, true)
        | none => none
      | none => some (w, false)
    else checkTradingTimesLoop exactMatch instrument w instrumentID rest

/-- Source `MarketWatcher::checkTradingTimes`. The global `markets`, the
helper `getInstrumentName` (from `utility.h`) and the matcher
`QRegExp(pattern).exactMatch(id)` are parameters. -/
def MarketWatcher.checkTradingTimes (getInstrumentName : String → String)
    (exactMatch : String → String → Bool) (markets : List Market)
    (w : MarketWatcher) (instrumentID : String) : Option (MarketWatcher × Bool) :=
  checkTradingTimesLoop exactMatch (getInstrumentName instrumentID) w instrumentID markets

/-! ## `prepareSaveDepthMarketData` -/

/-- The statement `endPointsMap[item] << instrumentID` on a
`QMap<QTime, QStringList>`, kept as a list of entries in ascending key order:
the entry of `item` is created empty when absent, then extended. Two keys are
the same when neither is less than the other. -/
def endPointsMapAppend (item : QTime) (instrumentID : String) :
    List (QTime × List String) → List (QTime × List String)
  | [] => [(item, [instrumentID])]
  | (key, ids) :: rest =>
    if item < key then (item, [instrumentID]) :: (key, ids) :: rest
    else if key < item then (key, ids) :: endPointsMapAppend item instrumentID rest
    else (key, ids ++ [instrumentID]) :: rest

/-- The lookup `endPointsMap[item]` (the empty list for an absent key). -/
def endPointsMapValue (item : QTime) : List (QTime × List String) → List String
  | [] => []
  | (key, ids) :: rest =>
    if item < key then []
    else if key < item then endPointsMapValue item rest
    else ids

/-- The first loop over `subscribeSet`, filling `endPointsMap`. -/
def buildEndPointsMap (getEndPoints : String → List QTime) (subscribeSet : List String) :
    List (QTime × List String) :=
  subscribeSet.foldl
    (fun endPointsMap instrumentID =>
      (getEndPoints instrumentID).foldl
        (fun m item => endPointsMapAppend item instrumentID m) endPointsMap)
    []

/-- Source `MarketWatcher::prepareSaveDepthMarketData`, without the creation
of directories and the arming of the timer. The helper `getEndPoints` (from
`utility.h`) is a parameter. `qSort(keys)` is a sort by `mds`. -/
def MarketWatcher.prepareSaveDepthMarketData (getEndPoints : String → List QTime)
    (w : MarketWatcher) : MarketWatcher :=
  let endPointsMap := buildEndPointsMap getEndPoints w.subscribeSet
  let keys := (endPointsMap.map Prod.fst).insertionSort (fun a b => a ≤ b)
  keys.foldl
    (fun w1 item =>
      { w1 with
        instrumentsToSave := w1.instrumentsToSave ++ [endPointsMapValue item endPointsMap]
        saveBarTimePoints := w1.saveBarTimePoints ++ [item.addSecs 180] })
    w

/-- Modelled from the spec: `getEndPoints` of `utility.h`, which is not among
the sources. Section 4.3 computes the flush instant of an instrument from
`lastSession.end`, so the end points of an instrument are the end of the last
session of its session list, and none when the list is empty. -/
def getEndPoints (sessionsFor : String → List TradeTime) (instrumentID : String) :
    List QTime :=
  match (sessionsFor instrumentID).getLast? with
  | some lastSession => [lastSession.2]
  | none => []

/-! ## `saveDepthMarketDataToFile` -/

/-- One file written by `saveDepthMarketDataToFile`: the instrument whose
buffer it holds, its name, and the records streamed into it in order. -/
structure FileWrite where
  instrumentID : String
  file_name : String
  records : List CThostFtdcDepthMarketDataField
deriving DecidableEq, Repr

/-- The body of the loop of `saveDepthMarketDataToFile` for one subscribed
instrument. `now` gives the text of `QDateTime::currentDateTime()` read when
the file of that instrument is named. -/
def saveStep (now : String → String) (cohort : List String)
    (acc : MarketWatcher × List FileWrite) (instrumentID : String) :
    MarketWatcher × List FileWrite :=
  if cohort.contains instrumentID then
    let depthMarketDataList := acc.1.depthMarketDataListMap instrumentID
    if depthMarketDataList.length > 0 then
      let file_name :=
        acc.1.saveDepthMarketDataPath ++ "/" ++ instrumentID ++ "/" ++ now instrumentID ++
          ".data"
      ({ acc.1 with
         depthMarketDataListMap :=
           Function.update acc.1.depthMarketDataListMap instrumentID [] },
       acc.2 ++ [⟨instrumentID, file_name, depthMarketDataList⟩])
    else acc
  else acc

/-- Source `MarketWatcher::saveDepthMarketDataToFile`: the new state and the
files written, in order. The source reads `instrumentsToSave[index]` once per
subscribed instrument, so the result is `none` when `index` is out of range
and there is an instrument to visit. -/
def MarketWatcher.saveDepthMarketDataToFile (now : String → String) (w : MarketWatcher)
    (index : Nat) : Option (MarketWatcher × List FileWrite) :=
  match w.instrumentsToSave[index]? with
  | some cohort => some (w.subscribeSet.foldl (saveStep now cohort) (w, []))
  | none => if w.subscribeSet.isEmpty then some (w, []) else none

/-! ## Concrete inputs -/

/-- A C string as the character codes of a `char` array, with its terminator. -/
def cstr (s : String) : List Int := s.toList.map (fun c => (c.toNat : Int)) ++ [0]

/-- An instance of the parameter `getInstrumentName` for concrete inputs: the
leading letters of the instrument id (`cu` for `cu1802`). -/
def leadingLetters (instrumentID : String) : String :=
  String.mk (instrumentID.toList.takeWhile Char.isAlpha)

/-- An instance of the parameter `exactMatch` for concrete inputs whose
patterns contain no regular-expression operator: such a pattern matches
exactly the text equal to it. -/
def literalMatch (pattern instrumentID : String) : Bool := pattern == instrumentID

/-- An instance of the parameter `getEndPoints`: the instruments `A` and `B`
close at 15:00:00 and `C` closes at 16:00:00. -/
def closeTimes (instrumentID : String) : List QTime :=
  if instrumentID = "A" ∨ instrumentID = "B" then [QTime.ofHMS 15 0 0]
  else if instrumentID = "C" then [QTime.ofHMS 16 0 0]
  else []

/-- An instance of the parameter `getEndPoints`: the instrument `A` closes at
15:00:00 and the instrument `N` at 23:58:00. -/
def lateCloseTimes (instrumentID : String) : List QTime :=
  if instrumentID = "A" then [QTime.ofHMS 15 0 0]
  else if instrumentID = "N" then [QTime.ofHMS 23 58 0]
  else []

/-- A tick record for instrument `id` stamped with the text `time`, all other
fields zero. -/
def tickAt (id time : String) : CThostFtdcDepthMarketDataField :=
  { InstrumentID := id, UpdateTime := cstr time, LastPrice := 0, Volume := 0,
    AskPrice1 := 0, AskVolume1 := 0, BidPrice1 := 0, BidVolume1 := 0,
    AskPrice2 := 0, AskVolume2 := 0, BidPrice2 := 0, BidVolume2 := 0 }

/-- A watcher with the given persistence flag, subscription list and sessions
per instrument, with empty buffers and no schedule yet. -/
def watcherWith (save : Bool) (subscribed : List String)
    (sessions : List (String × List TradeTime)) : MarketWatcher :=
  { saveDepthMarketData := save
    saveDepthMarketDataPath := "data"
    subscribeSet := subscribed
    tradingTimeMap := fun id => (sessions.lookup id).getD []
    depthMarketDataListMap := fun _ => []
    instrumentsToSave := []
    saveBarTimePoints := [] }

/-! ## Theorems -/

/-! ### Facts about `QTime` -/

theorem QTime.lt_def (a b : QTime) : a < b ↔ a.mds < b.mds := Iff.rfl

theorem QTime.le_def (a b : QTime) : a ≤ b ↔ a.mds ≤ b.mds := Iff.rfl

theorem QTime.ext_mds {a b : QTime} (h : a.mds = b.mds) : a = b := by
  cases a; cases b; simp_all

theorem QTime.isValid_iff (t : QTime) : t.isValid = true ↔ 0 ≤ t.mds ∧ t.mds < 86400000 := by
  simp only [QTime.isValid, MSECS_PER_DAY, Bool.and_eq_true, decide_eq_true_eq]
  omega

theorem QTime.ofHMS_mds (h m s : Int) (hh : 0 ≤ h ∧ h < 24) (hm : 0 ≤ m ∧ m < 60)
    (hs : 0 ≤ s ∧ s < 60) : (QTime.ofHMS h m s).mds = (h * 3600 + m * 60 + s) * 1000 := by
  simp [QTime.ofHMS, QTime.isValidHMS, hh, hm, hs]

theorem QTime.ofHMS_mds_cases (h m s : Int) :
    (QTime.ofHMS h m s).mds = -1 ∨
      (0 ≤ h * 3600 + m * 60 + s ∧ h * 3600 + m * 60 + s < 86400 ∧
        (QTime.ofHMS h m s).mds = (h * 3600 + m * 60 + s) * 1000) := by
  unfold QTime.ofHMS
  split
  · rename_i hv
    simp only [QTime.isValidHMS, Bool.and_eq_true, decide_eq_true_eq] at hv
    right
    refine ⟨by omega, by omega, rfl⟩
  · left; rfl

theorem QTime.addMSecs_mds_nonneg (t : QTime) (ms : Int) (ht : t.isValid = true) (hms : 0 ≤ ms) :
    (t.addMSecs ms).mds = (t.mds + ms) % 86400000 := by
  have hv := (QTime.isValid_iff t).1 ht
  have hds : t.ds = t.mds := by
    unfold QTime.ds; split <;> omega
  unfold QTime.addMSecs
  rw [if_pos ht, if_neg (by omega)]
  simp only [hds, MSECS_PER_DAY]
  rw [Int.tmod_eq_emod (by omega) (by omega)]

theorem QTime.addSecs_neg_one_mds (t : QTime) (ht : t.isValid = true) :
    (t.addSecs (-1)).mds = (t.mds + 86399000) % 86400000 := by
  have hv := (QTime.isValid_iff t).1 ht
  have hds : t.ds = t.mds := by
    unfold QTime.ds; split <;> omega
  unfold QTime.addSecs QTime.addMSecs
  rw [if_pos ht, if_pos (by omega)]
  simp only [hds, MSECS_PER_DAY]
  have h1 : Int.tdiv (86400000 - -1 * 1000) 86400000 = 1 := by decide
  rw [h1, Int.tmod_eq_emod (by omega) (by omega)]
  omega

theorem QTime.secsTo_midnight (t : QTime) (ht : t.isValid = true) :
    QTime.secsTo (QTime.ofHMS 0 0 0) t = t.mds / 1000 := by
  have hv := (QTime.isValid_iff t).1 ht
  have hds : t.ds = t.mds := by
    unfold QTime.ds; split <;> omega
  have h0 : (QTime.ofHMS 0 0 0).isValid = true := by decide
  have h0d : (QTime.ofHMS 0 0 0).ds = 0 := by decide
  unfold QTime.secsTo
  simp only [ht, h0, hds, h0d, Bool.not_true, Bool.or_self, Bool.false_eq_true, if_false]
  rw [Int.tdiv_eq_ediv (by omega) (by omega)]
  simp

/-! ### Facts about `charToDigit` and the parsed time -/

theorem charToDigit_range (ten one : Int) : 0 ≤ charToDigit ten one ∧ charToDigit ten one < 256 := by
  unfold charToDigit; omega

theorem tickTime_mds (d : CThostFtdcDepthMarketDataField) (hh : hourOf d < 24)
    (hm : minuteOf d < 60) (hs : secondOf d < 60) :
    (tickTime d).mds = (hourOf d * 3600 + minuteOf d * 60 + secondOf d) * 1000 := by
  have h1 := charToDigit_range (d.UpdateTime.getD 0 0) (d.UpdateTime.getD 1 0)
  have h2 := charToDigit_range (d.UpdateTime.getD 3 0) (d.UpdateTime.getD 4 0)
  have h3 := charToDigit_range (d.UpdateTime.getD 6 0) (d.UpdateTime.getD 7 0)
  exact QTime.ofHMS_mds _ _ _ ⟨h1.1, hh⟩ ⟨h2.1, hm⟩ ⟨h3.1, hs⟩

/-! ### Facts about the session loop -/

theorem processLoop_reject (w : MarketWatcher) (d : CThostFtdcDepthMarketDataField) (t : QTime)
    (sessions : List TradeTime) (hno : ∀ s ∈ sessions, isWithinRange t s.1 s.2 = false) :
    processLoop w d t sessions = (w, []) := by
  induction sessions with
  | nil => rfl
  | cons s rest ih =>
    have hs := hno s (List.mem_cons_self _ _)
    simp only [processLoop, hs, Bool.false_eq_true, if_false]
    exact ih (fun p hp => hno p (List.mem_cons_of_mem _ hp))

theorem processLoop_accept (w : MarketWatcher) (d : CThostFtdcDepthMarketDataField) (t : QTime)
    (pre : List TradeTime) (s : TradeTime) (post : List TradeTime)
    (hpre : ∀ p ∈ pre, isWithinRange t p.1 p.2 = false) (hs : isWithinRange t s.1 s.2 = true) :
    processLoop w d t (pre ++ s :: post) =
      ((if w.saveDepthMarketData then
          { w with
            depthMarketDataListMap :=
              Function.update w.depthMarketDataListMap d.InstrumentID
                (w.depthMarketDataListMap d.InstrumentID ++ [d]) }
        else w), [emitNewMarketData d t s]) := by
  induction pre with
  | nil => simp [processLoop, hs]
  | cons p rest ih =>
    have hp := hpre p (List.mem_cons_self _ _)
    simp only [List.cons_append, processLoop, hp, Bool.false_eq_true, if_false]
    exact ih (fun q hq => hpre q (List.mem_cons_of_mem _ hq))

/-- Every session list either rejects the time or splits at its first
session containing it. -/
theorem sessions_split (t : QTime) (sessions : List TradeTime) :
    (∀ s ∈ sessions, isWithinRange t s.1 s.2 = false) ∨
      ∃ pre s post, sessions = pre ++ s :: post ∧
        (∀ p ∈ pre, isWithinRange t p.1 p.2 = false) ∧ isWithinRange t s.1 s.2 = true := by
  induction sessions with
  | nil => left; simp
  | cons s rest ih =>
    by_cases hs : isWithinRange t s.1 s.2 = true
    · right; exact ⟨[], s, rest, rfl, by simp, hs⟩
    · rcases ih with hno | ⟨pre, s1, post, heq, hpre, hs1⟩
      · left
        intro p hp
        rcases List.mem_cons.1 hp with rfl | hp
        · simpa using hs
        · exact hno p hp
      · right
        refine ⟨s :: pre, s1, post, by simp [heq], ?_, hs1⟩
        intro p hp
        rcases List.mem_cons.1 hp with rfl | hp
        · simpa using hs
        · exact hpre p hp

/-- The emitted list of `processDepthMarketData` does not depend on the
buffers or on the persistence flag, only on the sessions and the tick. -/
theorem processLoop_emitted (w1 w2 : MarketWatcher) (d : CThostFtdcDepthMarketDataField)
    (t : QTime) (sessions : List TradeTime) :
    (processLoop w1 d t sessions).2 = (processLoop w2 d t sessions).2 := by
  induction sessions with
  | nil => rfl
  | cons s rest ih =>
    simp only [processLoop]
    split
    · rfl
    · exact ih

/-! ### Claims about `processDepthMarketData` -/

/-- The signals of `processDepthMarketData` for a tick with a valid time, in
terms of `isWithinRange`: at most one, none when the test fails for every
session, and otherwise the one built from the first session passing it. -/
theorem processDepthMarketData_first_within (w : MarketWatcher)
    (d : CThostFtdcDepthMarketDataField)
    (hh : hourOf d < 24) (hm : minuteOf d < 60) (hs : secondOf d < 60) :
    ((w.processDepthMarketData d).2.length ≤ 1) ∧
    ((∀ s ∈ w.tradingTimeMap d.InstrumentID, isWithinRange (tickTime d) s.1 s.2 = false) →
      (w.processDepthMarketData d).2 = []) ∧
    (∀ pre s post, w.tradingTimeMap d.InstrumentID = pre ++ s :: post →
      (∀ p ∈ pre, isWithinRange (tickTime d) p.1 p.2 = false) →
      isWithinRange (tickTime d) s.1 s.2 = true →
      ∃ n, (w.processDepthMarketData d).2 = [n] ∧
        n.instrumentID = d.InstrumentID ∧
        n.lastPrice = d.LastPrice ∧ n.volume = d.Volume ∧
        n.time =
          if tickTime d = s.2 then
            (hourOf d * 3600 + minuteOf d * 60 + secondOf d + 86399) % 86400
          else hourOf d * 3600 + minuteOf d * 60 + secondOf d) := by
  have hmds := tickTime_mds d hh hm hs
  have h1 := charToDigit_range (d.UpdateTime.getD 0 0) (d.UpdateTime.getD 1 0)
  have h2 := charToDigit_range (d.UpdateTime.getD 3 0) (d.UpdateTime.getD 4 0)
  have h3 := charToDigit_range (d.UpdateTime.getD 6 0) (d.UpdateTime.getD 7 0)
  have hH : hourOf d = charToDigit (d.UpdateTime.getD 0 0) (d.UpdateTime.getD 1 0) := rfl
  have hM : minuteOf d = charToDigit (d.UpdateTime.getD 3 0) (d.UpdateTime.getD 4 0) := rfl
  have hS : secondOf d = charToDigit (d.UpdateTime.getD 6 0) (d.UpdateTime.getD 7 0) := rfl
  have hvalid : (tickTime d).isValid = true := by
    rw [QTime.isValid_iff]; omega
  have hkey : ∀ pre s post, w.tradingTimeMap d.InstrumentID = pre ++ s :: post →
      (∀ p ∈ pre, isWithinRange (tickTime d) p.1 p.2 = false) →
      isWithinRange (tickTime d) s.1 s.2 = true →
      (w.processDepthMarketData d).2 = [emitNewMarketData d (tickTime d) s] := by
    intro pre s post heq hpre hin
    unfold MarketWatcher.processDepthMarketData
    rw [heq, processLoop_accept w d _ pre s post hpre hin]
  refine ⟨?_, ?_, ?_⟩
  · rcases sessions_split (tickTime d) (w.tradingTimeMap d.InstrumentID) with
      hno | ⟨pre, s, post, heq, hpre, hin⟩
    · unfold MarketWatcher.processDepthMarketData
      rw [processLoop_reject w d _ _ hno]; simp
    · rw [hkey pre s post heq hpre hin]; simp
  · intro hno
    unfold MarketWatcher.processDepthMarketData
    rw [processLoop_reject w d _ _ hno]
  · intro pre s post heq hpre hin
    refine ⟨_, hkey pre s post heq hpre hin, rfl, rfl, rfl, ?_⟩
    show QTime.secsTo (QTime.ofHMS 0 0 0)
        (if tickTime d = s.2 then (tickTime d).addSecs (-1) else tickTime d) = _
    by_cases he : tickTime d = s.2
    · rw [if_pos he, if_pos he]
      have hv1 : ((tickTime d).addSecs (-1)).isValid = true := by
        rw [QTime.isValid_iff, QTime.addSecs_neg_one_mds _ hvalid]; omega
      rw [QTime.secsTo_midnight _ hv1, QTime.addSecs_neg_one_mds _ hvalid, hmds]
      omega
    · rw [if_neg he, if_neg he, QTime.secsTo_midnight _ hvalid, hmds]
      omega

/-- For a session whose start and end differ, `isWithinRange` is containment
by comparisons: start ≤ t ≤ end when start < end, and t ≥ start or t ≤ end
when start > end. -/
theorem isWithinRange_iff_comparisons (t rangeStart rangeEnd : QTime)
    (hne : rangeStart ≠ rangeEnd) :
    isWithinRange t rangeStart rangeEnd = true ↔
      ((rangeStart < rangeEnd ∧ rangeStart ≤ t ∧ t ≤ rangeEnd) ∨
        (rangeEnd < rangeStart ∧ (rangeStart ≤ t ∨ t ≤ rangeEnd))) := by
  have hmds : rangeStart.mds ≠ rangeEnd.mds := fun h => hne (QTime.ext_mds h)
  unfold isWithinRange
  by_cases hlt : rangeStart < rangeEnd
  · have hnot : ¬ rangeEnd < rangeStart := by
      rw [QTime.lt_def] at hlt ⊢; omega
    simp [hlt, hnot]
  · have hgt : rangeEnd < rangeStart := by
      rw [QTime.lt_def] at hlt ⊢; omega
    simp [hlt, hgt]

/-- C3, as amended. Let no session of the instrument have start = end, and
say that a session contains `t` when start < end and start ≤ t ≤ end, or
start > end and t ≥ start or t ≤ end. For every tick whose parsed hour, minute
and second form a valid time of day `t`, `processDepthMarketData` emits at
most one signal: none when no session contains `t`; otherwise exactly one,
built from the first session in list order containing `t`, whose time field
is the number of seconds from midnight to `t`, except that for `t` equal to
that session's end it is the number of seconds from midnight to one second
earlier, with wraparound (86399 for an end at midnight). -/
theorem processDepthMarketData_first_session (w : MarketWatcher)
    (d : CThostFtdcDepthMarketDataField)
    (hh : hourOf d < 24) (hm : minuteOf d < 60) (hs : secondOf d < 60)
    (hne : ∀ s ∈ w.tradingTimeMap d.InstrumentID, s.1 ≠ s.2) :
    ((w.processDepthMarketData d).2.length ≤ 1) ∧
    ((∀ s ∈ w.tradingTimeMap d.InstrumentID,
        ¬ ((s.1 < s.2 ∧ s.1 ≤ tickTime d ∧ tickTime d ≤ s.2) ∨
            (s.2 < s.1 ∧ (s.1 ≤ tickTime d ∨ tickTime d ≤ s.2)))) →
      (w.processDepthMarketData d).2 = []) ∧
    (∀ pre s post, w.tradingTimeMap d.InstrumentID = pre ++ s :: post →
      (∀ p ∈ pre,
        ¬ ((p.1 < p.2 ∧ p.1 ≤ tickTime d ∧ tickTime d ≤ p.2) ∨
            (p.2 < p.1 ∧ (p.1 ≤ tickTime d ∨ tickTime d ≤ p.2)))) →
      ((s.1 < s.2 ∧ s.1 ≤ tickTime d ∧ tickTime d ≤ s.2) ∨
        (s.2 < s.1 ∧ (s.1 ≤ tickTime d ∨ tickTime d ≤ s.2))) →
      ∃ n, (w.processDepthMarketData d).2 = [n] ∧
        n.instrumentID = d.InstrumentID ∧
        n.lastPrice = d.LastPrice ∧ n.volume = d.Volume ∧
        n.time =
          if tickTime d = s.2 then
            (hourOf d * 3600 + minuteOf d * 60 + secondOf d + 86399) % 86400
          else hourOf d * 3600 + minuteOf d * 60 + secondOf d) := by
  obtain ⟨hlen, hnone, hfirst⟩ := processDepthMarketData_first_within w d hh hm hs
  have hfalse : ∀ s : TradeTime, s.1 ≠ s.2 →
      ¬ ((s.1 < s.2 ∧ s.1 ≤ tickTime d ∧ tickTime d ≤ s.2) ∨
          (s.2 < s.1 ∧ (s.1 ≤ tickTime d ∨ tickTime d ≤ s.2))) →
      isWithinRange (tickTime d) s.1 s.2 = false := by
    intro s hs1 hn
    cases hw : isWithinRange (tickTime d) s.1 s.2 with
    | false => rfl
    | true => exact absurd ((isWithinRange_iff_comparisons _ _ _ hs1).1 hw) hn
  refine ⟨hlen, ?_, ?_⟩
  · intro hno
    exact hnone (fun s hmem => hfalse s (hne s hmem) (hno s hmem))
  · intro pre s post heq hpre hin
    have hmem : ∀ p ∈ pre, p ∈ w.tradingTimeMap d.InstrumentID := by
      intro p hp; rw [heq]; exact List.mem_append_left _ hp
    have hsmem : s ∈ w.tradingTimeMap d.InstrumentID := by
      rw [heq]; simp
    exact hfirst pre s post heq
      (fun p hp => hfalse p (hne p (hmem p hp)) (hpre p hp))
      ((isWithinRange_iff_comparisons _ _ _ (hne s hsmem)).2 hin)

/-- Witness for C3 as amended: a tick at 11:30:00, the end of the first of two
abutting sessions, is emitted once with the time of 11:29:59. -/
theorem processDepthMarketData_first_session_witness :
    hourOf (tickAt "rb1801" "11:30:00") < 24 ∧
    minuteOf (tickAt "rb1801" "11:30:00") < 60 ∧
    secondOf (tickAt "rb1801" "11:30:00") < 60 ∧
    ∃ n, ((watcherWith false ["rb1801"]
        [("rb1801", [(QTime.ofHMS 9 0 0, QTime.ofHMS 11 30 0),
                     (QTime.ofHMS 11 30 0, QTime.ofHMS 15 0 0)])]).processDepthMarketData
      (tickAt "rb1801" "11:30:00")).2 = [n] ∧ n.time = 41399 := by
  refine ⟨by decide, by decide, by decide, ?_⟩
  obtain ⟨n, hn, _, _, _, ht⟩ :=
    (processDepthMarketData_first_session
      (watcherWith false ["rb1801"]
        [("rb1801", [(QTime.ofHMS 9 0 0, QTime.ofHMS 11 30 0),
                     (QTime.ofHMS 11 30 0, QTime.ofHMS 15 0 0)])])
      (tickAt "rb1801" "11:30:00") (by decide) (by decide) (by decide) (by decide)).2.2
      [] (QTime.ofHMS 9 0 0, QTime.ofHMS 11 30 0) [(QTime.ofHMS 11 30 0, QTime.ofHMS 15 0 0)]
      (by decide) (by simp) (by decide)
  refine ⟨n, hn, ?_⟩
  rw [ht]
  decide

/-- C3 as stated fails, with containment as the specification words it
(start ≤ t ≤ end for start ≤ end). With 09:00:00-09:00:00 as the only session
no session contains the valid tick time 10:00:00, yet a signal is emitted. With
the sessions 09:00:00-09:00:00 and 09:30:00-10:00:00 the first session
containing 10:00:00 is the second, whose end it equals, so the time field
should be 35999; the signal is built from the first session and carries
36000. -/
theorem processDepthMarketData_first_session_counterexample :
    (hourOf (tickAt "rb1801" "10:00:00") < 24 ∧
      minuteOf (tickAt "rb1801" "10:00:00") < 60 ∧
      secondOf (tickAt "rb1801" "10:00:00") < 60) ∧
    ((∀ s ∈ [(QTime.ofHMS 9 0 0, QTime.ofHMS 9 0 0)],
        ¬ ((s.1 ≤ s.2 ∧ s.1 ≤ tickTime (tickAt "rb1801" "10:00:00") ∧
              tickTime (tickAt "rb1801" "10:00:00") ≤ s.2) ∨
            (s.2 < s.1 ∧ (s.1 ≤ tickTime (tickAt "rb1801" "10:00:00") ∨
              tickTime (tickAt "rb1801" "10:00:00") ≤ s.2)))) ∧
      ((watcherWith false ["rb1801"]
          [("rb1801", [(QTime.ofHMS 9 0 0, QTime.ofHMS 9 0 0)])]).processDepthMarketData
        (tickAt "rb1801" "10:00:00")).2 ≠ []) ∧
    (¬ (QTime.ofHMS 9 0 0 ≤ tickTime (tickAt "rb1801" "10:00:00") ∧
          tickTime (tickAt "rb1801" "10:00:00") ≤ QTime.ofHMS 9 0 0) ∧
      (QTime.ofHMS 9 30 0 ≤ tickTime (tickAt "rb1801" "10:00:00") ∧
          tickTime (tickAt "rb1801" "10:00:00") ≤ QTime.ofHMS 10 0 0) ∧
      tickTime (tickAt "rb1801" "10:00:00") = QTime.ofHMS 10 0 0 ∧
      ((watcherWith false ["rb1801"]
          [("rb1801", [(QTime.ofHMS 9 0 0, QTime.ofHMS 9 0 0),
                       (QTime.ofHMS 9 30 0, QTime.ofHMS 10 0 0)])]).processDepthMarketData
        (tickAt "rb1801" "10:00:00")).2.map (fun n => n.time) = [36000]) := by
  decide

/-- C1, as amended. For a session with start < end that is the instrument's
only session, `processDepthMarketData` emits a signal exactly when
start ≤ t ≤ end for the parsed tick time `t`; a tick at exactly start is
accepted; and a tick at end + 1 s is rejected unless the session is
00:00:00-23:59:59, where end + 1 s wraps to its start. -/
theorem processDepthMarketData_single_session (w : MarketWatcher)
    (d : CThostFtdcDepthMarketDataField) (rangeStart rangeEnd : QTime)
    (hsess : w.tradingTimeMap d.InstrumentID = [(rangeStart, rangeEnd)])
    (hlt : rangeStart < rangeEnd) :
    ((w.processDepthMarketData d).2 ≠ [] ↔ (rangeStart ≤ tickTime d ∧ tickTime d ≤ rangeEnd)) ∧
    (tickTime d = rangeStart → (w.processDepthMarketData d).2 ≠ []) ∧
    (rangeStart.isValid = true → rangeEnd.isValid = true →
      tickTime d = rangeEnd.addSecs 1 →
      ¬ (rangeStart = QTime.ofHMS 0 0 0 ∧ rangeEnd = QTime.ofHMS 23 59 59) →
      (w.processDepthMarketData d).2 = []) := by
  have hiff : (w.processDepthMarketData d).2 ≠ [] ↔
      (rangeStart ≤ tickTime d ∧ tickTime d ≤ rangeEnd) := by
    unfold MarketWatcher.processDepthMarketData
    rw [hsess]
    simp only [processLoop, isWithinRange, if_pos hlt]
    by_cases h1 : rangeStart ≤ tickTime d <;> by_cases h2 : tickTime d ≤ rangeEnd <;>
      simp [h1, h2]
  refine ⟨hiff, ?_, ?_⟩
  · intro he
    rw [hiff, he]
    exact ⟨Int.le_refl _, Int.le_of_lt hlt⟩
  · intro hvs hve he hne
    by_contra hacc
    have hin := hiff.1 hacc
    rw [QTime.le_def, QTime.le_def] at hin
    rw [QTime.lt_def] at hlt
    have hs := (QTime.isValid_iff _).1 hvs
    have hev := (QTime.isValid_iff _).1 hve
    have hadd : (tickTime d).mds = (rangeEnd.mds + 1000) % 86400000 := by
      rw [he]; exact QTime.addMSecs_mds_nonneg rangeEnd (1 * 1000) hve (by omega)
    have hcases := QTime.ofHMS_mds_cases (hourOf d) (minuteOf d) (secondOf d)
    have htt : tickTime d = QTime.ofHMS (hourOf d) (minuteOf d) (secondOf d) := rfl
    rw [← htt] at hcases
    apply hne
    constructor
    · apply QTime.ext_mds
      have h0 : (QTime.ofHMS 0 0 0).mds = 0 := by decide
      rw [h0]; omega
    · apply QTime.ext_mds
      have h0 : (QTime.ofHMS 23 59 59).mds = 86399000 := by decide
      rw [h0]; omega

/-- Witness for C1 as amended: the session 09:30:00-11:30:00 and a tick at
11:30:01, which is end + 1 s and is rejected. -/
theorem processDepthMarketData_single_session_witness :
    QTime.ofHMS 9 30 0 < QTime.ofHMS 11 30 0 ∧
    ((watcherWith false ["rb1801"]
        [("rb1801", [(QTime.ofHMS 9 30 0, QTime.ofHMS 11 30 0)])]).processDepthMarketData
      (tickAt "rb1801" "11:30:01")).2 = [] :=
  ⟨by decide,
   (processDepthMarketData_single_session
      (watcherWith false ["rb1801"] [("rb1801", [(QTime.ofHMS 9 30 0, QTime.ofHMS 11 30 0)])])
      (tickAt "rb1801" "11:30:01") (QTime.ofHMS 9 30 0) (QTime.ofHMS 11 30 0)
      (by decide) (by decide)).2.2 (by decide) (by decide) (by decide) (by decide)⟩

/-- C1 as stated fails. With 09:00:00-09:00:00 as the only session
(start ≤ end), a tick at 10:00:00 is accepted although it lies outside
start ≤ t ≤ end; and with 00:00:00-23:59:59 as the only session, the tick
at end + 1 s, which is 00:00:00, is accepted. -/
theorem processDepthMarketData_single_session_counterexample :
    (QTime.ofHMS 9 0 0 ≤ QTime.ofHMS 9 0 0 ∧
      (tickTime (tickAt "rb1801" "10:00:00")).isValid = true ∧
      ((watcherWith false ["rb1801"]
          [("rb1801", [(QTime.ofHMS 9 0 0, QTime.ofHMS 9 0 0)])]).processDepthMarketData
        (tickAt "rb1801" "10:00:00")).2 ≠ [] ∧
      ¬ (QTime.ofHMS 9 0 0 ≤ tickTime (tickAt "rb1801" "10:00:00") ∧
          tickTime (tickAt "rb1801" "10:00:00") ≤ QTime.ofHMS 9 0 0)) ∧
    (QTime.ofHMS 0 0 0 ≤ QTime.ofHMS 23 59 59 ∧
      tickTime (tickAt "rb1801" "00:00:00") = (QTime.ofHMS 23 59 59).addSecs 1 ∧
      ((watcherWith false ["rb1801"]
          [("rb1801", [(QTime.ofHMS 0 0 0, QTime.ofHMS 23 59 59)])]).processDepthMarketData
        (tickAt "rb1801" "00:00:00")).2 ≠ []) := by
  decide

/-- C2. For a midnight-wrapping session (start > end), `isWithinRange` holds
of a time `t` exactly when t ≥ start or t ≤ end, and with such a session as
the instrument's only one `processDepthMarketData` emits a signal exactly
then; so for 21:00-02:00 the ticks at 23:00:00, 00:30:00 and 02:00:00 are
accepted and the tick at 10:00:00 is rejected. -/
theorem processDepthMarketData_wrapping_session (w : MarketWatcher)
    (d : CThostFtdcDepthMarketDataField) (rangeStart rangeEnd : QTime)
    (hsess : w.tradingTimeMap d.InstrumentID = [(rangeStart, rangeEnd)])
    (hwrap : rangeEnd < rangeStart) :
    (∀ t : QTime, isWithinRange t rangeStart rangeEnd = true ↔ (rangeStart ≤ t ∨ t ≤ rangeEnd)) ∧
    ((w.processDepthMarketData d).2 ≠ [] ↔ (rangeStart ≤ tickTime d ∨ tickTime d ≤ rangeEnd)) ∧
    (rangeStart = QTime.ofHMS 21 0 0 → rangeEnd = QTime.ofHMS 2 0 0 →
      (d.UpdateTime = cstr "23:00:00" → (w.processDepthMarketData d).2 ≠ []) ∧
      (d.UpdateTime = cstr "00:30:00" → (w.processDepthMarketData d).2 ≠ []) ∧
      (d.UpdateTime = cstr "02:00:00" → (w.processDepthMarketData d).2 ≠ []) ∧
      (d.UpdateTime = cstr "10:00:00" → (w.processDepthMarketData d).2 = [])) := by
  have hnot : ¬ rangeStart < rangeEnd := by
    rw [QTime.lt_def] at hwrap ⊢; omega
  have hrange : ∀ t : QTime, isWithinRange t rangeStart rangeEnd = true ↔
      (rangeStart ≤ t ∨ t ≤ rangeEnd) := by
    intro t
    simp [isWithinRange, if_neg hnot]
  have hiff : (w.processDepthMarketData d).2 ≠ [] ↔
      (rangeStart ≤ tickTime d ∨ tickTime d ≤ rangeEnd) := by
    rw [← hrange]
    unfold MarketWatcher.processDepthMarketData
    rw [hsess]
    simp only [processLoop]
    by_cases h : isWithinRange (tickTime d) rangeStart rangeEnd = true <;> simp [h]
  have htime : ∀ u : String, d.UpdateTime = cstr u → tickTime d = tickTime (tickAt "" u) := by
    intro u hu
    simp only [tickTime, hourOf, minuteOf, secondOf, hu, tickAt]
  refine ⟨hrange, hiff, ?_⟩
  intro h1 h2
  subst h1 h2
  refine ⟨?_, ?_, ?_, ?_⟩
  · intro hu; rw [hiff, htime _ hu]; decide
  · intro hu; rw [hiff, htime _ hu]; decide
  · intro hu; rw [hiff, htime _ hu]; decide
  · intro hu
    by_contra hacc
    have hin := hiff.1 hacc
    rw [htime _ hu] at hin
    revert hin; decide

/-- Witness for C2: the night session 21:00-02:00 and a tick at 00:30:00. -/
theorem processDepthMarketData_wrapping_session_witness :
    QTime.ofHMS 2 0 0 < QTime.ofHMS 21 0 0 ∧
    ((watcherWith false ["ag1806"]
        [("ag1806", [(QTime.ofHMS 21 0 0, QTime.ofHMS 2 0 0)])]).processDepthMarketData
      (tickAt "ag1806" "00:30:00")).2 ≠ [] :=
  ⟨by decide,
   ((processDepthMarketData_wrapping_session
      (watcherWith false ["ag1806"] [("ag1806", [(QTime.ofHMS 21 0 0, QTime.ofHMS 2 0 0)])])
      (tickAt "ag1806" "00:30:00") (QTime.ofHMS 21 0 0) (QTime.ofHMS 2 0 0)
      (by decide) (by decide)).2.2 rfl rfl).2.1 rfl⟩


/-- What `processDepthMarketData` returns, by cases on whether some session
of the instrument contains the tick time. -/
theorem processDepthMarketData_cases (w : MarketWatcher) (d : CThostFtdcDepthMarketDataField) :
    w.processDepthMarketData d = (w, []) ∨
      ∃ s, w.processDepthMarketData d =
        ((if w.saveDepthMarketData then
            { w with
              depthMarketDataListMap :=
                Function.update w.depthMarketDataListMap d.InstrumentID
                  (w.depthMarketDataListMap d.InstrumentID ++ [d]) }
          else w), [emitNewMarketData d (tickTime d) s]) := by
  rcases sessions_split (tickTime d) (w.tradingTimeMap d.InstrumentID) with
    hno | ⟨pre, s, post, heq, hpre, hin⟩
  · left
    unfold MarketWatcher.processDepthMarketData
    exact processLoop_reject w d _ _ hno
  · right
    refine ⟨s, ?_⟩
    unfold MarketWatcher.processDepthMarketData
    rw [heq]
    exact processLoop_accept w d _ pre s post hpre hin

/-- The effect of `processDepthMarketData` on the emitted signals and on the
state, with the persistence flag on and off. -/
theorem processDepthMarketData_effect (w : MarketWatcher)
    (d : CThostFtdcDepthMarketDataField) :
    (({ w with saveDepthMarketData := true }).processDepthMarketData d).2 =
      (({ w with saveDepthMarketData := false }).processDepthMarketData d).2 ∧
    (((w.processDepthMarketData d).2 ≠ [] ∧ w.saveDepthMarketData = true) →
      (w.processDepthMarketData d).1.depthMarketDataListMap =
        Function.update w.depthMarketDataListMap d.InstrumentID
          (w.depthMarketDataListMap d.InstrumentID ++ [d])) ∧
    (¬ ((w.processDepthMarketData d).2 ≠ [] ∧ w.saveDepthMarketData = true) →
      (w.processDepthMarketData d).1 = w) ∧
    ((w.processDepthMarketData d).1.saveDepthMarketData = w.saveDepthMarketData ∧
      (w.processDepthMarketData d).1.saveDepthMarketDataPath = w.saveDepthMarketDataPath ∧
      (w.processDepthMarketData d).1.subscribeSet = w.subscribeSet ∧
      (w.processDepthMarketData d).1.tradingTimeMap = w.tradingTimeMap ∧
      (w.processDepthMarketData d).1.instrumentsToSave = w.instrumentsToSave ∧
      (w.processDepthMarketData d).1.saveBarTimePoints = w.saveBarTimePoints) := by
  refine ⟨?_, ?_, ?_, ?_⟩
  · unfold MarketWatcher.processDepthMarketData
    exact processLoop_emitted _ _ d _ _
  · rintro ⟨hacc, hflag⟩
    rcases processDepthMarketData_cases w d with h | ⟨s, h⟩
    · rw [h] at hacc; exact absurd rfl hacc
    · rw [h, if_pos hflag]
  · intro hn
    rcases processDepthMarketData_cases w d with h | ⟨s, h⟩
    · rw [h]
    · rw [h]
      by_cases hflag : w.saveDepthMarketData = true
      · exact absurd ⟨by rw [h]; simp, hflag⟩ hn
      · rw [if_neg hflag]
  · rcases processDepthMarketData_cases w d with h | ⟨s, h⟩
    · rw [h]; simp
    · rw [h]
      by_cases hflag : w.saveDepthMarketData = true
      · simp [hflag]
      · simp [hflag]

/-- C9. The signals `processDepthMarketData` emits are the same with the
persistence flag on and off. The buffers change exactly when the tick is
accepted and the flag is on, and then only by appending the tick at the end
of the buffer of its own instrument; otherwise the whole state is unchanged.
No other member of the state changes in either case. -/
theorem processDepthMarketData_emission_persistence (w : MarketWatcher)
    (d : CThostFtdcDepthMarketDataField) :
    (({ w with saveDepthMarketData := true }).processDepthMarketData d).2 =
      (({ w with saveDepthMarketData := false }).processDepthMarketData d).2 ∧
    (((w.processDepthMarketData d).2 ≠ [] ∧ w.saveDepthMarketData = true) →
      (w.processDepthMarketData d).1.depthMarketDataListMap =
        Function.update w.depthMarketDataListMap d.InstrumentID
          (w.depthMarketDataListMap d.InstrumentID ++ [d])) ∧
    (¬ ((w.processDepthMarketData d).2 ≠ [] ∧ w.saveDepthMarketData = true) →
      (w.processDepthMarketData d).1 = w) ∧
    ((w.processDepthMarketData d).1.saveDepthMarketData = w.saveDepthMarketData ∧
      (w.processDepthMarketData d).1.saveDepthMarketDataPath = w.saveDepthMarketDataPath ∧
      (w.processDepthMarketData d).1.subscribeSet = w.subscribeSet ∧
      (w.processDepthMarketData d).1.tradingTimeMap = w.tradingTimeMap ∧
      (w.processDepthMarketData d).1.instrumentsToSave = w.instrumentsToSave ∧
      (w.processDepthMarketData d).1.saveBarTimePoints = w.saveBarTimePoints) :=
  processDepthMarketData_effect w d

/-- A tick whose text is no time of day is rejected by sessions that do not
wrap: the null time compares below every valid session start. -/
theorem processDepthMarketData_invalid_time_day_sessions (w : MarketWatcher)
    (d : CThostFtdcDepthMarketDataField) (hinv : (tickTime d).isValid = false)
    (hday : ∀ s ∈ w.tradingTimeMap d.InstrumentID, s.1.isValid = true ∧ s.1 < s.2) :
    w.processDepthMarketData d = (w, []) := by
  have hnull : (tickTime d).mds = -1 := by
    rcases QTime.ofHMS_mds_cases (hourOf d) (minuteOf d) (secondOf d) with h | ⟨h1, h2, h3⟩
    · exact h
    · have hv : (tickTime d).isValid = true := by
        rw [QTime.isValid_iff]
        have htt : tickTime d = QTime.ofHMS (hourOf d) (minuteOf d) (secondOf d) := rfl
        rw [htt, h3]; omega
      rw [hinv] at hv
      exact absurd hv (by simp)
  unfold MarketWatcher.processDepthMarketData
  apply processLoop_reject
  intro s hs
  obtain ⟨hv, hlt⟩ := hday s hs
  have hs0 := (QTime.isValid_iff _).1 hv
  have hnle : ¬ s.1 ≤ tickTime d := by
    rw [QTime.le_def, hnull]; omega
  simp [isWithinRange, hlt, hnle]

/-- C10 fails on the code. The text 24:00:00 is no time of day, yet with the
night session 21:00-02:30 `processDepthMarketData` emits a signal for it,
with time 0, and buffers the record. -/
theorem processDepthMarketData_invalid_time_accepted :
    (tickTime (tickAt "ag1806" "24:00:00")).isValid = false ∧
    ((watcherWith true ["ag1806"]
        [("ag1806", [(QTime.ofHMS 21 0 0, QTime.ofHMS 2 30 0)])]).processDepthMarketData
      (tickAt "ag1806" "24:00:00")).2 =
      [{ instrumentID := "ag1806", time := 0, lastPrice := 0, volume := 0,
         askPrice1 := 0, askVolume1 := 0, bidPrice1 := 0, bidVolume1 := 0,
         askPrice2 := 0, askVolume2 := 0, bidPrice2 := 0, bidVolume2 := 0 }] ∧
    ((watcherWith true ["ag1806"]
        [("ag1806", [(QTime.ofHMS 21 0 0, QTime.ofHMS 2 30 0)])]).processDepthMarketData
      (tickAt "ag1806" "24:00:00")).1.depthMarketDataListMap "ag1806" =
      [tickAt "ag1806" "24:00:00"] := by
  decide


/-! ### Claims about `checkTradingTimes` -/

/-- Every list either has no element satisfying `p` or splits at the first
one that does. -/
theorem first_true_split {α : Type} (p : α → Bool) (l : List α) :
    (∀ x ∈ l, p x = false) ∨
      ∃ pre x post, l = pre ++ x :: post ∧ (∀ y ∈ pre, p y = false) ∧ p x = true := by
  induction l with
  | nil => left; simp
  | cons a rest ih =>
    by_cases ha : p a = true
    · right; exact ⟨[], a, rest, rfl, by simp, ha⟩
    · rcases ih with hno | ⟨pre, x, post, heq, hpre, hx⟩
      · left
        intro y hy
        rcases List.mem_cons.1 hy with rfl | hy
        · simpa using ha
        · exact hno y hy
      · right
        refine ⟨a :: pre, x, post, by simp [heq], ?_, hx⟩
        intro y hy
        rcases List.mem_cons.1 hy with rfl | hy
        · simpa using ha
        · exact hpre y hy

/-- The split of a list at its first element satisfying `p` is unique. -/
theorem first_true_unique {α : Type} (p : α → Bool) (pre : List α) (x : α) (post : List α)
    (pre1 : List α) (x1 : α) (post1 : List α)
    (heq : pre ++ x :: post = pre1 ++ x1 :: post1)
    (hpre : ∀ y ∈ pre, p y = false) (hx : p x = true)
    (hpre1 : ∀ y ∈ pre1, p y = false) (hx1 : p x1 = true) :
    pre = pre1 ∧ x = x1 ∧ post = post1 := by
  induction pre generalizing pre1 with
  | nil =>
    cases pre1 with
    | nil =>
      simp only [List.nil_append, List.cons.injEq] at heq
      exact ⟨rfl, heq.1, heq.2⟩
    | cons a rest =>
      simp only [List.nil_append, List.cons_append, List.cons.injEq] at heq
      have ha := hpre1 a (List.mem_cons_self _ _)
      rw [← heq.1, hx] at ha
      exact absurd ha (by simp)
  | cons b rest ih =>
    cases pre1 with
    | nil =>
      simp only [List.nil_append, List.cons_append, List.cons.injEq] at heq
      have hb := hpre b (List.mem_cons_self _ _)
      rw [heq.1, hx1] at hb
      exact absurd hb (by simp)
    | cons a rest1 =>
      simp only [List.cons_append, List.cons.injEq] at heq
      obtain ⟨h1, h2, h3⟩ := ih rest1 heq.2
        (fun y hy => hpre y (List.mem_cons_of_mem _ hy))
        (fun y hy => hpre1 y (List.mem_cons_of_mem _ hy))
      exact ⟨by rw [heq.1, h1], h2, h3⟩

theorem regexLoop_none (exactMatch : String → String → Bool) (instrumentID : String)
    (regexs : List String) (i : Nat)
    (hno : ∀ r ∈ regexs, exactMatch r instrumentID = false) :
    regexLoop exactMatch instrumentID regexs i = none := by
  induction regexs generalizing i with
  | nil => rfl
  | cons r rest ih =>
    have hr := hno r (List.mem_cons_self _ _)
    simp only [regexLoop, hr, Bool.false_eq_true, if_false]
    exact ih (i + 1) (fun q hq => hno q (List.mem_cons_of_mem _ hq))

theorem regexLoop_some (exactMatch : String → String → Bool) (instrumentID : String)
    (rpre : List String) (r : String) (rpost : List String) (i : Nat)
    (hpre : ∀ q ∈ rpre, exactMatch q instrumentID = false)
    (hr : exactMatch r instrumentID = true) :
    regexLoop exactMatch instrumentID (rpre ++ r :: rpost) i = some (i + rpre.length) := by
  induction rpre generalizing i with
  | nil => simp [regexLoop, hr]
  | cons q rest ih =>
    have hq := hpre q (List.mem_cons_self _ _)
    rw [List.cons_append, regexLoop, if_neg (by simp [hq]),
      ih (i + 1) (fun x hx => hpre x (List.mem_cons_of_mem _ hx))]
    simp only [List.length_cons]
    congr 1
    omega

theorem checkTradingTimesLoop_skip (exactMatch : String → String → Bool) (instrument : String)
    (w : MarketWatcher) (instrumentID : String) (pre rest : List Market)
    (hpre : ∀ p ∈ pre, instrument ∉ p.codes) :
    checkTradingTimesLoop exactMatch instrument w instrumentID (pre ++ rest) =
      checkTradingTimesLoop exactMatch instrument w instrumentID rest := by
  induction pre with
  | nil => rfl
  | cons p ps ih =>
    have hp : p.codes.contains instrument = false := by
      have := hpre p (List.mem_cons_self _ _)
      simpa using this
    simp only [List.cons_append, checkTradingTimesLoop, hp, Bool.false_eq_true, if_false]
    exact ih (fun q hq => hpre q (List.mem_cons_of_mem _ hq))

/-- C4, as amended. `checkTradingTimes` looks only at the first market, in
registry order, that lists the instrument name of the id among its codes.
It stores as the id's sessions the session list paired with the first pattern
of that market matching the id and returns true; it returns false and leaves
the state unchanged when no market lists the code or when no pattern of that
first market matches, whatever the patterns of later markets are. -/
theorem checkTradingTimes_first_market (getInstrumentName : String → String)
    (exactMatch : String → String → Bool) (markets : List Market)
    (w : MarketWatcher) (instrumentID : String)
    (hwf : ∀ m ∈ markets, m.regexs.length ≤ m.tradetimeses.length) :
    ((∀ m ∈ markets, getInstrumentName instrumentID ∉ m.codes) →
      w.checkTradingTimes getInstrumentName exactMatch markets instrumentID = some (w, false)) ∧
    (∀ pre m post, markets = pre ++ m :: post →
      (∀ p ∈ pre, getInstrumentName instrumentID ∉ p.codes) →
      getInstrumentName instrumentID ∈ m.codes →
      ((∀ r ∈ m.regexs, exactMatch r instrumentID = false) →
        w.checkTradingTimes getInstrumentName exactMatch markets instrumentID =
          some (w, false)) ∧
      (∀ rpre r rpost, m.regexs = rpre ++ r :: rpost →
        (∀ q ∈ rpre, exactMatch q instrumentID = false) →
        exactMatch r instrumentID = true →
        ∃ tradetimes, m.tradetimeses[rpre.length]? = some tradetimes ∧
          w.checkTradingTimes getInstrumentName exactMatch markets instrumentID =
            some ({ w with
                    tradingTimeMap :=
                      Function.update w.tradingTimeMap instrumentID tradetimes }, true))) ∧
    (∃ w1 b, w.checkTradingTimes getInstrumentName exactMatch markets instrumentID =
        some (w1, b) ∧
      (b = false → w1 = w) ∧
      (b = true ↔
        ∃ pre m post rpre r rpost, markets = pre ++ m :: post ∧
          (∀ p ∈ pre, getInstrumentName instrumentID ∉ p.codes) ∧
          getInstrumentName instrumentID ∈ m.codes ∧
          m.regexs = rpre ++ r :: rpost ∧
          (∀ q ∈ rpre, exactMatch q instrumentID = false) ∧
          exactMatch r instrumentID = true)) := by
  have hmain : ((∀ m ∈ markets, getInstrumentName instrumentID ∉ m.codes) →
      w.checkTradingTimes getInstrumentName exactMatch markets instrumentID = some (w, false)) ∧
    (∀ pre m post, markets = pre ++ m :: post →
      (∀ p ∈ pre, getInstrumentName instrumentID ∉ p.codes) →
      getInstrumentName instrumentID ∈ m.codes →
      ((∀ r ∈ m.regexs, exactMatch r instrumentID = false) →
        w.checkTradingTimes getInstrumentName exactMatch markets instrumentID =
          some (w, false)) ∧
      (∀ rpre r rpost, m.regexs = rpre ++ r :: rpost →
        (∀ q ∈ rpre, exactMatch q instrumentID = false) →
        exactMatch r instrumentID = true →
        ∃ tradetimes, m.tradetimeses[rpre.length]? = some tradetimes ∧
          w.checkTradingTimes getInstrumentName exactMatch markets instrumentID =
            some ({ w with
                    tradingTimeMap :=
                      Function.update w.tradingTimeMap instrumentID tradetimes }, true))) := by
    refine ⟨?_, ?_⟩
    · intro hno
      have h := checkTradingTimesLoop_skip exactMatch (getInstrumentName instrumentID) w
        instrumentID markets [] hno
      rw [List.append_nil] at h
      unfold MarketWatcher.checkTradingTimes
      rw [h]; rfl
    · intro pre m post heq hpre hm
      have hc : m.codes.contains (getInstrumentName instrumentID) = true := by simpa using hm
      have hstep : w.checkTradingTimes getInstrumentName exactMatch markets instrumentID =
          checkTradingTimesLoop exactMatch (getInstrumentName instrumentID) w instrumentID
            (m :: post) := by
        unfold MarketWatcher.checkTradingTimes
        rw [heq]
        exact checkTradingTimesLoop_skip _ _ _ _ pre (m :: post) hpre
      refine ⟨?_, ?_⟩
      · intro hno
        rw [hstep]
        simp only [checkTradingTimesLoop, hc, if_true, regexLoop_none _ _ _ 0 hno]
      · intro rpre r rpost hreq hrpre hr
        have hmem : m ∈ markets := by rw [heq]; simp
        have hlen : rpre.length < m.tradetimeses.length := by
          have h1 := hwf m hmem
          rw [hreq] at h1
          simp only [List.length_append, List.length_cons] at h1
          omega
        refine ⟨m.tradetimeses[rpre.length], List.getElem?_eq_getElem hlen, ?_⟩
        rw [hstep, checkTradingTimesLoop, if_pos hc, hreq,
          regexLoop_some _ _ rpre r rpost 0 hrpre hr, Nat.zero_add]
        simp only [List.getElem?_eq_getElem hlen]
  refine ⟨hmain.1, hmain.2, ?_⟩
  rcases first_true_split (fun m : Market => m.codes.contains (getInstrumentName instrumentID))
      markets with hno | ⟨pre, m, post, heq, hpre, hm⟩
  · have hno1 : ∀ m ∈ markets, getInstrumentName instrumentID ∉ m.codes := by
      intro m hmem; simpa using hno m hmem
    refine ⟨w, false, hmain.1 hno1, fun _ => rfl, ?_⟩
    constructor
    · intro h; exact absurd h (by simp)
    · rintro ⟨pre, m, post, _, _, _, heq, _, hm, _⟩
      exact absurd hm (hno1 m (by rw [heq]; simp))
  · have hpre1 : ∀ p ∈ pre, getInstrumentName instrumentID ∉ p.codes := by
      intro p hp; simpa using hpre p hp
    have hm1 : getInstrumentName instrumentID ∈ m.codes := by simpa using hm
    rcases first_true_split (fun r => exactMatch r instrumentID) m.regexs with
      hnor | ⟨rpre, r, rpost, hreq, hrpre, hr⟩
    · refine ⟨w, false, (hmain.2 pre m post heq hpre1 hm1).1 hnor, fun _ => rfl, ?_⟩
      constructor
      · intro h; exact absurd h (by simp)
      · rintro ⟨pre2, m2, post2, rpre2, r2, rpost2, heq2, hpre2, hm2, hreq2, _, hr2⟩
        have hu := first_true_unique
          (fun m : Market => m.codes.contains (getInstrumentName instrumentID))
          pre m post pre2 m2 post2 (by rw [← heq, ← heq2]) hpre hm
          (fun y hy => by simpa using hpre2 y hy) (by simpa using hm2)
        have hmm : m = m2 := hu.2.1
        subst hmm
        have hr3 := hnor r2 (by rw [hreq2]; simp)
        simp only [hr2] at hr3
        exact absurd hr3 (by simp)
    · obtain ⟨tt, _, hres⟩ := (hmain.2 pre m post heq hpre1 hm1).2 rpre r rpost hreq hrpre hr
      refine ⟨_, true, hres, fun h => absurd h (by simp), ?_⟩
      constructor
      · intro _
        exact ⟨pre, m, post, rpre, r, rpost, heq, hpre1, hm1, hreq, hrpre, hr⟩
      · intro _; rfl

/-- Witness for C4 as amended: one market listing `cu` with the patterns
`cu1801` and `cu1802`; the id `cu1802` gets the sessions of the second. -/
theorem checkTradingTimes_first_market_witness :
    ((watcherWith false ["cu1802"] []).checkTradingTimes leadingLetters literalMatch
        [⟨["cu"], ["cu1801", "cu1802"],
          [[(QTime.ofHMS 9 0 0, QTime.ofHMS 11 30 0)],
           [(QTime.ofHMS 13 30 0, QTime.ofHMS 15 0 0)]]⟩]
        "cu1802").map (fun r => (r.2, r.1.tradingTimeMap "cu1802")) =
      some (true, [(QTime.ofHMS 13 30 0, QTime.ofHMS 15 0 0)]) := by
  obtain ⟨tt, htt, hres⟩ :=
    ((checkTradingTimes_first_market leadingLetters literalMatch
      [⟨["cu"], ["cu1801", "cu1802"],
        [[(QTime.ofHMS 9 0 0, QTime.ofHMS 11 30 0)],
         [(QTime.ofHMS 13 30 0, QTime.ofHMS 15 0 0)]]⟩]
      (watcherWith false ["cu1802"] []) "cu1802" (by decide)).2.1
      [] _ [] rfl (by simp) (by decide)).2 ["cu1801"] "cu1802" [] rfl (by decide) (by decide)
  rw [hres]
  have h2 : tt = [(QTime.ofHMS 13 30 0, QTime.ofHMS 15 0 0)] := by
    have h3 : some tt = some [(QTime.ofHMS 13 30 0, QTime.ofHMS 15 0 0)] := by
      rw [← htt]; rfl
    exact Option.some.inj h3
  subst h2
  simp

/-- C4 as stated fails. Two markets list the code `cu`; the first has the
pattern `cu1801`, the second the pattern `cu1802`. The pattern of the second
market matches the id `cu1802`, so the first matching pattern in
market-then-pattern order exists, yet `checkTradingTimes` returns false and
stores no sessions for the id. -/
theorem checkTradingTimes_counterexample :
    literalMatch "cu1802" "cu1802" = true ∧
    literalMatch "cu1801" "cu1802" = false ∧
    ((watcherWith false ["cu1802"] []).checkTradingTimes leadingLetters literalMatch
        [⟨["cu"], ["cu1801"], [[(QTime.ofHMS 9 0 0, QTime.ofHMS 11 30 0)]]⟩,
         ⟨["cu"], ["cu1802"], [[(QTime.ofHMS 13 30 0, QTime.ofHMS 15 0 0)]]⟩]
        "cu1802").map (fun r => (r.2, r.1.tradingTimeMap "cu1802")) =
      some (false, []) := by
  decide


/-! ### Facts about `endPointsMap` -/

theorem QTime.lt_trichotomy (a b : QTime) : a < b ∨ a = b ∨ b < a := by
  rcases Int.lt_trichotomy a.mds b.mds with h | h | h
  · exact Or.inl h
  · exact Or.inr (Or.inl (QTime.ext_mds h))
  · exact Or.inr (Or.inr h)

theorem QTime.lt_irrefl (a : QTime) : ¬ a < a := Int.lt_irrefl a.mds

theorem QTime.lt_asymm {a b : QTime} (h : a < b) : ¬ b < a := by
  rw [QTime.lt_def] at h ⊢; omega

theorem QTime.lt_trans {a b c : QTime} (h1 : a < b) (h2 : b < c) : a < c := by
  rw [QTime.lt_def] at h1 h2 ⊢; omega

/-- Reading a key after `endPointsMap[item] << instrumentID`. -/
theorem endPointsMapValue_append (item : QTime) (instrumentID : String) (k : QTime)
    (m : List (QTime × List String)) :
    endPointsMapValue k (endPointsMapAppend item instrumentID m) =
      if k = item then endPointsMapValue k m ++ [instrumentID] else endPointsMapValue k m := by
  induction m with
  | nil =>
    simp only [endPointsMapAppend, endPointsMapValue]
    rcases QTime.lt_trichotomy k item with h | h | h
    · have hne : k ≠ item := fun e => QTime.lt_irrefl item (e ▸ h)
      simp [h, hne]
    · subst h; simp [QTime.lt_irrefl]
    · have hne : k ≠ item := fun e => QTime.lt_irrefl item (e ▸ h)
      simp [h, QTime.lt_asymm h, hne]
  | cons entry rest ih =>
    obtain ⟨key, ids⟩ := entry
    simp only [endPointsMapAppend]
    rcases QTime.lt_trichotomy item key with h | h | h
    · rw [if_pos h]
      rcases QTime.lt_trichotomy k item with h1 | h1 | h1
      · have hne : k ≠ item := fun e => QTime.lt_irrefl item (e ▸ h1)
        simp [endPointsMapValue, h1, hne, QTime.lt_trans h1 h]
      · subst h1
        simp [endPointsMapValue, QTime.lt_irrefl, h]
      · have hne : k ≠ item := fun e => QTime.lt_irrefl item (e ▸ h1)
        simp [endPointsMapValue, h1, QTime.lt_asymm h1, hne]
    · subst h
      rw [if_neg (QTime.lt_irrefl _), if_neg (QTime.lt_irrefl _)]
      rcases QTime.lt_trichotomy k item with h1 | h1 | h1
      · have hne : k ≠ item := fun e => QTime.lt_irrefl item (e ▸ h1)
        simp [endPointsMapValue, h1, hne]
      · subst h1
        simp [endPointsMapValue, QTime.lt_irrefl]
      · have hne : k ≠ item := fun e => QTime.lt_irrefl item (e ▸ h1)
        simp [endPointsMapValue, h1, QTime.lt_asymm h1, hne]
    · rw [if_neg (QTime.lt_asymm h), if_pos h]
      rcases QTime.lt_trichotomy k key with h1 | h1 | h1
      · have hlt : k < item := QTime.lt_trans h1 h
        have hne : k ≠ item := fun e => QTime.lt_irrefl item (e ▸ hlt)
        simp [endPointsMapValue, h1, hne]
      · subst h1
        have hne : k ≠ item := fun e => QTime.lt_irrefl item (e ▸ h)
        simp [endPointsMapValue, QTime.lt_irrefl, hne]
      · simp only [endPointsMapValue, if_neg (QTime.lt_asymm h1), if_pos h1]
        exact ih

/-- The keys after `endPointsMap[item] << instrumentID`. -/
theorem endPointsMapAppend_keys (item : QTime) (instrumentID : String) (k : QTime)
    (m : List (QTime × List String)) :
    k ∈ (endPointsMapAppend item instrumentID m).map Prod.fst ↔
      k = item ∨ k ∈ m.map Prod.fst := by
  induction m with
  | nil => simp [endPointsMapAppend]
  | cons entry rest ih =>
    obtain ⟨key, ids⟩ := entry
    simp only [endPointsMapAppend]
    rcases QTime.lt_trichotomy item key with h | h | h
    · rw [if_pos h]; simp
    · subst h
      rw [if_neg (QTime.lt_irrefl _), if_neg (QTime.lt_irrefl _)]
      simp
    · rw [if_neg (QTime.lt_asymm h), if_pos h]
      simp only [List.map_cons, List.mem_cons, ih]
      tauto

/-- Appending keeps the entries in strictly ascending key order. -/
theorem endPointsMapAppend_ascending (item : QTime) (instrumentID : String)
    (m : List (QTime × List String))
    (hm : List.Pairwise (fun a b : QTime × List String => a.1 < b.1) m) :
    List.Pairwise (fun a b : QTime × List String => a.1 < b.1)
      (endPointsMapAppend item instrumentID m) := by
  induction m with
  | nil => simp [endPointsMapAppend]
  | cons entry rest ih =>
    obtain ⟨key, ids⟩ := entry
    rw [List.pairwise_cons] at hm
    simp only [endPointsMapAppend]
    rcases QTime.lt_trichotomy item key with h | h | h
    · rw [if_pos h]
      refine List.Pairwise.cons ?_ (List.Pairwise.cons hm.1 hm.2)
      intro b hb
      rcases List.mem_cons.1 hb with rfl | hb
      · exact h
      · exact QTime.lt_trans h (hm.1 b hb)
    · subst h
      rw [if_neg (QTime.lt_irrefl _), if_neg (QTime.lt_irrefl _)]
      exact List.Pairwise.cons hm.1 hm.2
    · rw [if_neg (QTime.lt_asymm h), if_pos h]
      refine List.Pairwise.cons ?_ (ih hm.2)
      intro b hb
      have hk : b.1 ∈ (endPointsMapAppend item instrumentID rest).map Prod.fst :=
        List.mem_map_of_mem _ hb
      rcases (endPointsMapAppend_keys item instrumentID b.1 rest).1 hk with he | hk
      · rw [he]; exact h
      · obtain ⟨c, hc, hce⟩ := List.mem_map.1 hk
        have := hm.1 c hc
        rw [hce] at this
        exact this

/-- The inner loop of `prepareSaveDepthMarketData` over the end points of one
instrument. -/
theorem endPoints_inner_fold (instrumentID : String) (es : List QTime)
    (m : List (QTime × List String))
    (hm : List.Pairwise (fun a b : QTime × List String => a.1 < b.1) m) :
    List.Pairwise (fun a b : QTime × List String => a.1 < b.1)
        (es.foldl (fun m item => endPointsMapAppend item instrumentID m) m) ∧
    (∀ k, k ∈ (es.foldl (fun m item => endPointsMapAppend item instrumentID m) m).map Prod.fst ↔
        k ∈ es ∨ k ∈ m.map Prod.fst) ∧
    (∀ k x, x ∈ endPointsMapValue k
          (es.foldl (fun m item => endPointsMapAppend item instrumentID m) m) ↔
        (x = instrumentID ∧ k ∈ es) ∨ x ∈ endPointsMapValue k m) := by
  induction es generalizing m with
  | nil => simp [hm]
  | cons e rest ih =>
    obtain ⟨h1, h2, h3⟩ := ih (endPointsMapAppend e instrumentID m)
      (endPointsMapAppend_ascending e instrumentID m hm)
    simp only [List.foldl_cons]
    refine ⟨h1, ?_, ?_⟩
    · intro k
      rw [h2 k, endPointsMapAppend_keys]
      simp only [List.mem_cons]
      tauto
    · intro k x
      rw [h3 k x, endPointsMapValue_append]
      by_cases hk : k = e
      · subst hk
        simp only [if_true, List.mem_append, List.mem_singleton, List.mem_cons, true_or, and_true]
        tauto
      · rw [if_neg hk]
        simp only [List.mem_cons, hk, false_or]

/-- The first loop of `prepareSaveDepthMarketData`, started from any map. -/
theorem endPoints_outer_fold (getEndPoints : String → List QTime) (subs : List String)
    (m : List (QTime × List String))
    (hm : List.Pairwise (fun a b : QTime × List String => a.1 < b.1) m) :
    List.Pairwise (fun a b : QTime × List String => a.1 < b.1)
        (subs.foldl
          (fun endPointsMap instrumentID =>
            (getEndPoints instrumentID).foldl
              (fun m item => endPointsMapAppend item instrumentID m) endPointsMap) m) ∧
    (∀ k, k ∈ (subs.foldl
          (fun endPointsMap instrumentID =>
            (getEndPoints instrumentID).foldl
              (fun m item => endPointsMapAppend item instrumentID m) endPointsMap)
          m).map Prod.fst ↔
        (∃ id ∈ subs, k ∈ getEndPoints id) ∨ k ∈ m.map Prod.fst) ∧
    (∀ k x, x ∈ endPointsMapValue k (subs.foldl
          (fun endPointsMap instrumentID =>
            (getEndPoints instrumentID).foldl
              (fun m item => endPointsMapAppend item instrumentID m) endPointsMap) m) ↔
        (x ∈ subs ∧ k ∈ getEndPoints x) ∨ x ∈ endPointsMapValue k m) := by
  induction subs generalizing m with
  | nil => simp [hm]
  | cons id rest ih =>
    obtain ⟨g1, g2, g3⟩ := endPoints_inner_fold id (getEndPoints id) m hm
    obtain ⟨h1, h2, h3⟩ := ih _ g1
    simp only [List.foldl_cons]
    refine ⟨h1, ?_, ?_⟩
    · intro k
      rw [h2 k, g2 k]
      constructor
      · rintro (⟨x, hx, hk⟩ | hk | hk)
        · exact Or.inl ⟨x, List.mem_cons_of_mem _ hx, hk⟩
        · exact Or.inl ⟨id, List.mem_cons_self _ _, hk⟩
        · exact Or.inr hk
      · rintro (⟨x, hx, hk⟩ | hk)
        · rcases List.mem_cons.1 hx with rfl | hx
          · exact Or.inr (Or.inl hk)
          · exact Or.inl ⟨x, hx, hk⟩
        · exact Or.inr (Or.inr hk)
    · intro k x
      rw [h3 k x, g3 k x]
      simp only [List.mem_cons]
      constructor
      · rintro (⟨hx, hk⟩ | ⟨rfl, hk⟩ | hx)
        · exact Or.inl ⟨Or.inr hx, hk⟩
        · exact Or.inl ⟨Or.inl rfl, hk⟩
        · exact Or.inr hx
      · rintro (⟨rfl | hx, hk⟩ | hx)
        · exact Or.inr (Or.inl ⟨rfl, hk⟩)
        · exact Or.inl ⟨hx, hk⟩
        · exact Or.inr (Or.inr hx)

/-- What `buildEndPointsMap` holds: keys in strictly ascending order, a key
for every end point of a subscribed instrument, and under each key the
subscribed instruments having that end point. -/
theorem buildEndPointsMap_spec (getEndPoints : String → List QTime) (subs : List String) :
    List.Pairwise (fun a b : QTime × List String => a.1 < b.1)
        (buildEndPointsMap getEndPoints subs) ∧
    (∀ k, k ∈ (buildEndPointsMap getEndPoints subs).map Prod.fst ↔
        ∃ id ∈ subs, k ∈ getEndPoints id) ∧
    (∀ k x, x ∈ endPointsMapValue k (buildEndPointsMap getEndPoints subs) ↔
        (x ∈ subs ∧ k ∈ getEndPoints x)) := by
  obtain ⟨h1, h2, h3⟩ := endPoints_outer_fold getEndPoints subs [] List.Pairwise.nil
  refine ⟨h1, ?_, ?_⟩
  · intro k; rw [buildEndPointsMap, h2 k]; simp
  · intro k x; rw [buildEndPointsMap, h3 k x]; simp [endPointsMapValue]

/-- The second loop of `prepareSaveDepthMarketData` appends one cohort and
one flush instant per key. -/
theorem prepare_second_loop (m : List (QTime × List String)) (keys : List QTime)
    (w : MarketWatcher) :
    (keys.foldl
        (fun w1 item =>
          { w1 with
            instrumentsToSave := w1.instrumentsToSave ++ [endPointsMapValue item m]
            saveBarTimePoints := w1.saveBarTimePoints ++ [item.addSecs 180] })
        w).instrumentsToSave = w.instrumentsToSave ++ keys.map (fun k => endPointsMapValue k m) ∧
    (keys.foldl
        (fun w1 item =>
          { w1 with
            instrumentsToSave := w1.instrumentsToSave ++ [endPointsMapValue item m]
            saveBarTimePoints := w1.saveBarTimePoints ++ [item.addSecs 180] })
        w).saveBarTimePoints = w.saveBarTimePoints ++ keys.map (fun k => k.addSecs 180) := by
  induction keys generalizing w with
  | nil => simp
  | cons k rest ih =>
    simp only [List.foldl_cons, List.map_cons]
    obtain ⟨h1, h2⟩ := ih
      { w with
        instrumentsToSave := w.instrumentsToSave ++ [endPointsMapValue k m]
        saveBarTimePoints := w.saveBarTimePoints ++ [k.addSecs 180] }
    rw [h1, h2]
    simp

/-- Sorting the keys of a `QMap` leaves them as they are. -/
theorem keys_sorted (m : List (QTime × List String))
    (hm : List.Pairwise (fun a b : QTime × List String => a.1 < b.1) m) :
    (m.map Prod.fst).insertionSort (fun a b => a ≤ b) = m.map Prod.fst := by
  apply List.Sorted.insertionSort_eq
  unfold List.Sorted
  rw [List.pairwise_map]
  exact hm.imp (fun h => Int.le_of_lt h)

/-- The two lists built by `prepareSaveDepthMarketData`, in terms of the keys
of `endPointsMap`. -/
theorem prepare_lists (getEndPoints : String → List QTime) (w : MarketWatcher) :
    (w.prepareSaveDepthMarketData getEndPoints).instrumentsToSave =
      w.instrumentsToSave ++
        ((buildEndPointsMap getEndPoints w.subscribeSet).map Prod.fst).map
          (fun k => endPointsMapValue k (buildEndPointsMap getEndPoints w.subscribeSet)) ∧
    (w.prepareSaveDepthMarketData getEndPoints).saveBarTimePoints =
      w.saveBarTimePoints ++
        ((buildEndPointsMap getEndPoints w.subscribeSet).map Prod.fst).map
          (fun k => k.addSecs 180) := by
  unfold MarketWatcher.prepareSaveDepthMarketData
  simp only [keys_sorted _ (buildEndPointsMap_spec getEndPoints w.subscribeSet).1]
  exact prepare_second_loop _ _ w

/-- Adding the 180 s grace period sends distinct valid times to distinct
times. -/
theorem QTime.addSecs_grace_injective (a b : QTime) (ha : a.isValid = true)
    (hb : b.isValid = true) (h : a.addSecs 180 = b.addSecs 180) : a = b := by
  have h1 := QTime.addMSecs_mds_nonneg a (180 * 1000) ha (by omega)
  have h2 := QTime.addMSecs_mds_nonneg b (180 * 1000) hb (by omega)
  have hab : (a.addSecs 180).mds = (b.addSecs 180).mds := by rw [h]
  unfold QTime.addSecs at hab
  rw [h1, h2] at hab
  have hva := (QTime.isValid_iff a).1 ha
  have hvb := (QTime.isValid_iff b).1 hb
  apply QTime.ext_mds
  omega


/-! ### Claims about `prepareSaveDepthMarketData` -/

/-- The first loop only reads the end points of the subscribed instruments. -/
theorem buildEndPointsMap_congr (g1 g2 : String → List QTime) (subs : List String)
    (h : ∀ id ∈ subs, g1 id = g2 id) :
    buildEndPointsMap g1 subs = buildEndPointsMap g2 subs := by
  unfold buildEndPointsMap
  generalize ([] : List (QTime × List String)) = m
  induction subs generalizing m with
  | nil => rfl
  | cons id rest ih =>
    simp only [List.foldl_cons]
    rw [h id (List.mem_cons_self _ _)]
    exact ih (fun x hx => h x (List.mem_cons_of_mem _ hx)) _

/-- The six orders in which a set of three instruments can be iterated. -/
theorem perm_three_cases (subs : List String) (h : subs.Perm ["A", "B", "C"]) :
    subs ∈ [["A", "B", "C"], ["A", "C", "B"], ["B", "A", "C"], ["B", "C", "A"],
      ["C", "A", "B"], ["C", "B", "A"]] := by
  have hlen : subs.length = 3 := h.length_eq
  have hnd : subs.Nodup := h.nodup_iff.2 (by decide)
  match subs, hlen, h, hnd with
  | [x, y, z], _, h, hnd =>
    have hx : x ∈ ["A", "B", "C"] := h.subset (by simp)
    have hy : y ∈ ["A", "B", "C"] := h.subset (by simp)
    have hz : z ∈ ["A", "B", "C"] := h.subset (by simp)
    simp only [List.mem_cons, List.mem_singleton, List.not_mem_nil, or_false] at hx hy hz
    rcases hx with rfl | rfl | rfl <;> rcases hy with rfl | rfl | rfl <;>
      rcases hz with rfl | rfl | rfl <;>
      first
        | exact absurd hnd (by decide)
        | decide

/-- C5. After `prepareSaveDepthMarketData` on a watcher without a schedule,
`instrumentsToSave` and `saveBarTimePoints` have the same length, and cohort
`i` contains exactly the subscribed instruments having an end point `e`, as
reported by `getEndPoints`, with `e` + 180 s equal to flush instant `i`. For
`A` and `B` closing at 15:00 and `C` at 16:00 the result is the two cohorts
15:03:00 with `A`, `B` and 16:03:00 with `C`. -/
theorem prepareSaveDepthMarketData_cohorts (getEndPoints : String → List QTime)
    (w : MarketWatcher) (h1 : w.instrumentsToSave = []) (h2 : w.saveBarTimePoints = [])
    (hvalid : ∀ id ∈ w.subscribeSet, ∀ e ∈ getEndPoints id, e.isValid = true) :
    ((w.prepareSaveDepthMarketData getEndPoints).instrumentsToSave.length =
      (w.prepareSaveDepthMarketData getEndPoints).saveBarTimePoints.length) ∧
    (∀ (i : Nat) (cohort : List String) (instant : QTime),
      (w.prepareSaveDepthMarketData getEndPoints).instrumentsToSave[i]? = some cohort →
      (w.prepareSaveDepthMarketData getEndPoints).saveBarTimePoints[i]? = some instant →
      ∀ id, id ∈ cohort ↔
        (id ∈ w.subscribeSet ∧ ∃ e ∈ getEndPoints id, e.addSecs 180 = instant)) ∧
    (w.subscribeSet.Perm ["A", "B", "C"] →
      getEndPoints "A" = [QTime.ofHMS 15 0 0] →
      getEndPoints "B" = [QTime.ofHMS 15 0 0] →
      getEndPoints "C" = [QTime.ofHMS 16 0 0] →
      (w.prepareSaveDepthMarketData getEndPoints).saveBarTimePoints =
          [QTime.ofHMS 15 3 0, QTime.ofHMS 16 3 0] ∧
        ((w.prepareSaveDepthMarketData getEndPoints).instrumentsToSave = [["A", "B"], ["C"]] ∨
          (w.prepareSaveDepthMarketData getEndPoints).instrumentsToSave =
            [["B", "A"], ["C"]])) := by
  obtain ⟨hl1, hl2⟩ := prepare_lists getEndPoints w
  obtain ⟨_, hkeys, hvals⟩ := buildEndPointsMap_spec getEndPoints w.subscribeSet
  rw [h1, List.nil_append] at hl1
  rw [h2, List.nil_append] at hl2
  refine ⟨by rw [hl1, hl2]; simp, ?_, ?_⟩
  · intro i cohort instant hc hi id
    rw [hl1, List.getElem?_map] at hc
    rw [hl2, List.getElem?_map] at hi
    cases hk : ((buildEndPointsMap getEndPoints w.subscribeSet).map Prod.fst)[i]? with
    | none => rw [hk] at hc; simp at hc
    | some k =>
      rw [hk] at hc hi
      simp only [Option.map_some', Option.some.injEq] at hc hi
      subst hc hi
      rw [hvals k id]
      constructor
      · rintro ⟨hid, hk⟩
        exact ⟨hid, k, hk, rfl⟩
      · rintro ⟨hid, e, he, heq⟩
        refine ⟨hid, ?_⟩
        have hkmem : k ∈ (buildEndPointsMap getEndPoints w.subscribeSet).map Prod.fst :=
          List.mem_iff_getElem?.2 ⟨i, hk⟩
        obtain ⟨id1, hid1, hk1⟩ := (hkeys k).1 hkmem
        have hek : e = k :=
          QTime.addSecs_grace_injective e k (hvalid id hid e he) (hvalid id1 hid1 k hk1) heq
        rw [← hek]; exact he
  · intro hperm hA hB hC
    have hcongr : buildEndPointsMap getEndPoints w.subscribeSet =
        buildEndPointsMap closeTimes w.subscribeSet := by
      apply buildEndPointsMap_congr
      intro id hid
      have hmem := hperm.mem_iff.1 hid
      simp only [List.mem_cons, List.mem_singleton, List.not_mem_nil, or_false] at hmem
      rcases hmem with rfl | rfl | rfl
      · rw [hA]; rfl
      · rw [hB]; rfl
      · rw [hC]; rfl
    rw [hl1, hl2, hcongr]
    have hmemp := perm_three_cases w.subscribeSet hperm
    have hall : ∀ subs ∈ [["A", "B", "C"], ["A", "C", "B"], ["B", "A", "C"], ["B", "C", "A"],
        ["C", "A", "B"], ["C", "B", "A"]],
        ((buildEndPointsMap closeTimes subs).map Prod.fst).map (fun k => k.addSecs 180) =
            [QTime.ofHMS 15 3 0, QTime.ofHMS 16 3 0] ∧
          (((buildEndPointsMap closeTimes subs).map Prod.fst).map
              (fun k => endPointsMapValue k (buildEndPointsMap closeTimes subs)) =
              [["A", "B"], ["C"]] ∨
            ((buildEndPointsMap closeTimes subs).map Prod.fst).map
              (fun k => endPointsMapValue k (buildEndPointsMap closeTimes subs)) =
              [["B", "A"], ["C"]]) := by
      decide
    exact hall _ hmemp

/-- Witness for C5: the three instruments of the example, iterated in the
order `A`, `B`, `C`. -/
theorem prepareSaveDepthMarketData_cohorts_witness :
    ((watcherWith true ["A", "B", "C"] []).prepareSaveDepthMarketData
        closeTimes).saveBarTimePoints = [QTime.ofHMS 15 3 0, QTime.ofHMS 16 3 0] ∧
    (((watcherWith true ["A", "B", "C"] []).prepareSaveDepthMarketData
        closeTimes).instrumentsToSave = [["A", "B"], ["C"]] ∨
      ((watcherWith true ["A", "B", "C"] []).prepareSaveDepthMarketData
        closeTimes).instrumentsToSave = [["B", "A"], ["C"]]) :=
  (prepareSaveDepthMarketData_cohorts closeTimes (watcherWith true ["A", "B", "C"] [])
    rfl rfl (by decide)).2.2 (List.Perm.refl _) rfl rfl rfl

/-- C6 fails on the code. With `A` closing at 15:00:00 and `N` at 23:58:00
the keys are sorted as 15:00:00, 23:58:00 and then shifted by 180 s, which
wraps the second past midnight: the flush instants are listed as 15:03:00,
00:01:00, the later entry being the earlier time of day. -/
theorem prepareSaveDepthMarketData_not_ascending :
    ((watcherWith true ["A", "N"] []).prepareSaveDepthMarketData
        lateCloseTimes).saveBarTimePoints = [QTime.ofHMS 15 3 0, QTime.ofHMS 0 1 0] ∧
    QTime.ofHMS 0 1 0 < QTime.ofHMS 15 3 0 ∧
    ((watcherWith true ["A", "N"] []).prepareSaveDepthMarketData
        lateCloseTimes).instrumentsToSave = [["A"], ["N"]] := by
  decide

/-- The flush instants are pairwise distinct for valid end points, and in
ascending order when no end point lies in the last 180 s of the day. -/
theorem prepareSaveDepthMarketData_instants (getEndPoints : String → List QTime)
    (w : MarketWatcher) (h2 : w.saveBarTimePoints = [])
    (hvalid : ∀ id ∈ w.subscribeSet, ∀ e ∈ getEndPoints id, e.isValid = true) :
    (w.prepareSaveDepthMarketData getEndPoints).saveBarTimePoints.Nodup ∧
    ((∀ id ∈ w.subscribeSet, ∀ e ∈ getEndPoints id, e.mds + 180000 < 86400000) →
      List.Pairwise (fun a b : QTime => a < b)
        (w.prepareSaveDepthMarketData getEndPoints).saveBarTimePoints) := by
  obtain ⟨_, hl2⟩ := prepare_lists getEndPoints w
  obtain ⟨hasc, hkeys, _⟩ := buildEndPointsMap_spec getEndPoints w.subscribeSet
  rw [h2, List.nil_append] at hl2
  have hkv : ∀ k ∈ (buildEndPointsMap getEndPoints w.subscribeSet).map Prod.fst,
      k.isValid = true := by
    intro k hk
    obtain ⟨id, hid, he⟩ := (hkeys k).1 hk
    exact hvalid id hid k he
  have hkasc : List.Pairwise (fun a b : QTime => a < b)
      ((buildEndPointsMap getEndPoints w.subscribeSet).map Prod.fst) := by
    rw [List.pairwise_map]; exact hasc
  rw [hl2]
  constructor
  · unfold List.Nodup
    rw [List.pairwise_map]
    refine List.Pairwise.imp_of_mem ?_ hkasc
    intro a b ha hb hab heq
    have := QTime.addSecs_grace_injective a b (hkv a ha) (hkv b hb) heq
    rw [this] at hab
    exact QTime.lt_irrefl _ hab
  · intro hnowrap
    rw [List.pairwise_map]
    refine List.Pairwise.imp_of_mem ?_ hkasc
    intro a b ha hb hab
    obtain ⟨ida, hida, hea⟩ := (hkeys a).1 ha
    obtain ⟨idb, hidb, heb⟩ := (hkeys b).1 hb
    have hwa := hnowrap ida hida a hea
    have hwb := hnowrap idb hidb b heb
    have hva := (QTime.isValid_iff a).1 (hkv a ha)
    have hvb := (QTime.isValid_iff b).1 (hkv b hb)
    have h1 := QTime.addMSecs_mds_nonneg a (180 * 1000) (hkv a ha) (by omega)
    have h3 := QTime.addMSecs_mds_nonneg b (180 * 1000) (hkv b hb) (by omega)
    rw [QTime.lt_def] at hab ⊢
    unfold QTime.addSecs
    rw [h1, h3]
    omega

/-- C7. With `getEndPoints` as the specification describes it, every
subscribed instrument with a non-empty session list is in exactly one cohort
built by `prepareSaveDepthMarketData`, and the flush instant of that cohort is
the end of the instrument's last session plus 180 s. -/
theorem prepareSaveDepthMarketData_one_cohort (w : MarketWatcher)
    (h1 : w.instrumentsToSave = []) (h2 : w.saveBarTimePoints = [])
    (id : String) (hid : id ∈ w.subscribeSet) (lastSession : TradeTime)
    (hlast : (w.tradingTimeMap id).getLast? = some lastSession) :
    ∃ (i : Nat) (cohort : List String),
      (w.prepareSaveDepthMarketData (getEndPoints w.tradingTimeMap)).instrumentsToSave[i]? =
        some cohort ∧
      id ∈ cohort ∧
      (w.prepareSaveDepthMarketData (getEndPoints w.tradingTimeMap)).saveBarTimePoints[i]? =
        some (lastSession.2.addSecs 180) ∧
      ∀ (j : Nat) (other : List String),
        (w.prepareSaveDepthMarketData (getEndPoints w.tradingTimeMap)).instrumentsToSave[j]? =
          some other →
        id ∈ other → j = i := by
  obtain ⟨hl1, hl2⟩ := prepare_lists (getEndPoints w.tradingTimeMap) w
  obtain ⟨hasc, hkeys, hvals⟩ := buildEndPointsMap_spec (getEndPoints w.tradingTimeMap)
    w.subscribeSet
  rw [h1, List.nil_append] at hl1
  rw [h2, List.nil_append] at hl2
  have hends : getEndPoints w.tradingTimeMap id = [lastSession.2] := by
    unfold getEndPoints; rw [hlast]
  have hkmem : lastSession.2 ∈
      (buildEndPointsMap (getEndPoints w.tradingTimeMap) w.subscribeSet).map Prod.fst :=
    (hkeys _).2 ⟨id, hid, by rw [hends]; simp⟩
  obtain ⟨i, hi⟩ := List.mem_iff_getElem?.1 hkmem
  have hnd : ((buildEndPointsMap (getEndPoints w.tradingTimeMap) w.subscribeSet).map
      Prod.fst).Nodup := by
    unfold List.Nodup
    rw [List.pairwise_map]
    exact hasc.imp (fun hab heq => by rw [heq] at hab; exact QTime.lt_irrefl _ hab)
  have hilt : i < ((buildEndPointsMap (getEndPoints w.tradingTimeMap) w.subscribeSet).map
      Prod.fst).length := by
    by_contra hge
    rw [List.getElem?_eq_none (by omega)] at hi
    exact absurd hi (by simp)
  refine ⟨i, endPointsMapValue lastSession.2
    (buildEndPointsMap (getEndPoints w.tradingTimeMap) w.subscribeSet), ?_, ?_, ?_, ?_⟩
  · rw [hl1, List.getElem?_map, hi]; rfl
  · rw [hvals]; exact ⟨hid, by rw [hends]; simp⟩
  · rw [hl2, List.getElem?_map, hi]; rfl
  · intro j other hj hmem
    rw [hl1, List.getElem?_map] at hj
    cases hk : ((buildEndPointsMap (getEndPoints w.tradingTimeMap) w.subscribeSet).map
        Prod.fst)[j]? with
    | none => rw [hk] at hj; simp at hj
    | some k =>
      rw [hk] at hj
      simp only [Option.map_some', Option.some.injEq] at hj
      subst hj
      have hk2 := ((hvals k id).1 hmem).2
      rw [hends, List.mem_singleton] at hk2
      subst hk2
      exact (List.getElem?_inj hilt hnd (by rw [hi, hk])).symm

/-- Witness for C7: an instrument with a morning and an afternoon session is
in the one cohort flushed at 15:03:00. -/
theorem prepareSaveDepthMarketData_one_cohort_witness :
    ∃ (i : Nat) (cohort : List String),
      ((watcherWith true ["rb1801"]
          [("rb1801", [(QTime.ofHMS 9 0 0, QTime.ofHMS 11 30 0),
                       (QTime.ofHMS 13 30 0, QTime.ofHMS 15 0 0)])]).prepareSaveDepthMarketData
        (getEndPoints (watcherWith true ["rb1801"]
          [("rb1801", [(QTime.ofHMS 9 0 0, QTime.ofHMS 11 30 0),
                       (QTime.ofHMS 13 30 0, QTime.ofHMS 15 0 0)])]).tradingTimeMap)
        ).instrumentsToSave[i]? = some cohort ∧
      "rb1801" ∈ cohort ∧
      ((watcherWith true ["rb1801"]
          [("rb1801", [(QTime.ofHMS 9 0 0, QTime.ofHMS 11 30 0),
                       (QTime.ofHMS 13 30 0, QTime.ofHMS 15 0 0)])]).prepareSaveDepthMarketData
        (getEndPoints (watcherWith true ["rb1801"]
          [("rb1801", [(QTime.ofHMS 9 0 0, QTime.ofHMS 11 30 0),
                       (QTime.ofHMS 13 30 0, QTime.ofHMS 15 0 0)])]).tradingTimeMap)
        ).saveBarTimePoints[i]? = some (QTime.ofHMS 15 3 0) := by
  obtain ⟨i, cohort, hc, hm, hs, _⟩ :=
    prepareSaveDepthMarketData_one_cohort
      (watcherWith true ["rb1801"]
        [("rb1801", [(QTime.ofHMS 9 0 0, QTime.ofHMS 11 30 0),
                     (QTime.ofHMS 13 30 0, QTime.ofHMS 15 0 0)])])
      rfl rfl "rb1801" (by decide) (QTime.ofHMS 13 30 0, QTime.ofHMS 15 0 0) (by decide)
  refine ⟨i, cohort, hc, hm, ?_⟩
  rw [hs]
  decide


/-! ### Claims about `saveDepthMarketDataToFile` -/

/-- One loop iteration clears the buffer of the instrument when it is in the
cohort, and touches no other buffer. -/
theorem saveStep_buffer (now : String → String) (cohort : List String)
    (acc : MarketWatcher × List FileWrite) (x y : String) :
    (saveStep now cohort acc x).1.depthMarketDataListMap y =
      if y = x ∧ x ∈ cohort then [] else acc.1.depthMarketDataListMap y := by
  unfold saveStep
  by_cases hc : cohort.contains x = true
  · have hx : x ∈ cohort := by simpa using hc
    rw [if_pos hc]
    by_cases hl : (acc.1.depthMarketDataListMap x).length > 0
    · simp only [hl, if_true, hx, and_true]
      by_cases hy : y = x
      · subst hy; simp
      · simp [hy, Function.update_noteq hy]
    · have hnil : acc.1.depthMarketDataListMap x = [] := by
        cases h : acc.1.depthMarketDataListMap x with
        | nil => rfl
        | cons a b => rw [h] at hl; simp at hl
      simp only [hl, if_false, hx, and_true]
      by_cases hy : y = x
      · subst hy; simp [hnil]
      · simp [hy]
  · have hx : x ∉ cohort := by simpa using hc
    simp [hc, hx]

/-- One loop iteration changes nothing but the buffers. -/
theorem saveStep_frame (now : String → String) (cohort : List String)
    (acc : MarketWatcher × List FileWrite) (x : String) :
    (saveStep now cohort acc x).1.saveDepthMarketDataPath = acc.1.saveDepthMarketDataPath ∧
    (saveStep now cohort acc x).1.subscribeSet = acc.1.subscribeSet ∧
    (saveStep now cohort acc x).1.instrumentsToSave = acc.1.instrumentsToSave := by
  unfold saveStep
  by_cases hc : cohort.contains x = true
  · rw [if_pos hc]
    by_cases hl : (acc.1.depthMarketDataListMap x).length > 0
    · simp only [hl, if_true, and_self]
    · simp only [hl, if_false, and_self]
  · rw [if_neg hc]
    exact ⟨rfl, rfl, rfl⟩

/-- One loop iteration writes the buffer of the instrument when it is in the
cohort and its buffer is not empty, and nothing otherwise. -/
theorem saveStep_writes (now : String → String) (cohort : List String)
    (acc : MarketWatcher × List FileWrite) (x : String) :
    (saveStep now cohort acc x).2 =
      acc.2 ++
        (if x ∈ cohort ∧ acc.1.depthMarketDataListMap x ≠ [] then
          [⟨x, acc.1.saveDepthMarketDataPath ++ "/" ++ x ++ "/" ++ now x ++ ".data",
            acc.1.depthMarketDataListMap x⟩]
        else []) := by
  unfold saveStep
  by_cases hc : cohort.contains x = true
  · have hx : x ∈ cohort := by simpa using hc
    rw [if_pos hc]
    cases h : acc.1.depthMarketDataListMap x with
    | nil => simp
    | cons a b => simp [hx]
  · have hx : x ∉ cohort := by simpa using hc
    simp [hc, hx]

/-- An iteration over an instrument whose buffer is empty, or which is not in
the cohort, is no change at all. -/
theorem saveStep_noop (now : String → String) (cohort : List String)
    (acc : MarketWatcher × List FileWrite) (x : String)
    (h : x ∈ cohort → acc.1.depthMarketDataListMap x = []) :
    saveStep now cohort acc x = acc := by
  unfold saveStep
  by_cases hc : cohort.contains x = true
  · have hx : x ∈ cohort := by simpa using hc
    rw [if_pos hc]
    simp [h hx]
  · rw [if_neg hc]

/-- The loop of `saveDepthMarketDataToFile`, from any accumulated state. -/
theorem saveLoop_spec (now : String → String) (cohort : List String) (ids : List String)
    (acc : MarketWatcher × List FileWrite) (a : String) :
    (∀ y, (ids.foldl (saveStep now cohort) acc).1.depthMarketDataListMap y =
        if y ∈ ids ∧ y ∈ cohort then [] else acc.1.depthMarketDataListMap y) ∧
    ((ids.foldl (saveStep now cohort) acc).1.saveDepthMarketDataPath =
        acc.1.saveDepthMarketDataPath ∧
      (ids.foldl (saveStep now cohort) acc).1.subscribeSet = acc.1.subscribeSet ∧
      (ids.foldl (saveStep now cohort) acc).1.instrumentsToSave = acc.1.instrumentsToSave) ∧
    ((ids.foldl (saveStep now cohort) acc).2.filter (fun f => decide (f.instrumentID = a)) =
      acc.2.filter (fun f => decide (f.instrumentID = a)) ++
        (if a ∈ ids ∧ a ∈ cohort ∧ acc.1.depthMarketDataListMap a ≠ [] then
          [⟨a, acc.1.saveDepthMarketDataPath ++ "/" ++ a ++ "/" ++ now a ++ ".data",
            acc.1.depthMarketDataListMap a⟩]
        else [])) := by
  induction ids generalizing acc with
  | nil => simp
  | cons x rest ih =>
    obtain ⟨hb, ⟨hp, hs, hi⟩, hw⟩ := ih (saveStep now cohort acc x)
    obtain ⟨fp, fs, fi⟩ := saveStep_frame now cohort acc x
    simp only [List.foldl_cons]
    refine ⟨?_, ⟨by rw [hp, fp], by rw [hs, fs], by rw [hi, fi]⟩, ?_⟩
    · intro y
      rw [hb y, saveStep_buffer]
      by_cases hy : y = x
      · subst hy
        by_cases hc : y ∈ cohort <;> simp [hc]
      · simp [hy]
    · rw [hw, saveStep_writes, saveStep_buffer, fp]
      by_cases hax : a = x
      · subst hax
        by_cases hc : a ∈ cohort
        · by_cases hne : acc.1.depthMarketDataListMap a = []
          · simp [hc, hne]
          · simp [hc, hne]
        · simp [hc]
      · have hxa : ¬ x = a := fun e => hax e.symm
        by_cases hc : x ∈ cohort ∧ acc.1.depthMarketDataListMap x ≠ []
        · simp [hc, hax, hxa]
        · simp [hc, hax]

/-- The loop of `saveDepthMarketDataToFile` changes nothing when the buffers
of the cohort are empty. -/
theorem saveLoop_noop (now : String → String) (cohort : List String) (ids : List String)
    (acc : MarketWatcher × List FileWrite)
    (h : ∀ y ∈ ids, y ∈ cohort → acc.1.depthMarketDataListMap y = []) :
    ids.foldl (saveStep now cohort) acc = acc := by
  induction ids with
  | nil => rfl
  | cons x rest ih =>
    simp only [List.foldl_cons]
    rw [saveStep_noop now cohort acc x (h x (List.mem_cons_self _ _))]
    exact ih (fun y hy => h y (List.mem_cons_of_mem _ hy))

/-- The signals emitted for a tick depend on the state only through the
sessions. -/
theorem processDepthMarketData_emitted_congr (w1 w2 : MarketWatcher)
    (d : CThostFtdcDepthMarketDataField) (h : w1.tradingTimeMap = w2.tradingTimeMap) :
    (w1.processDepthMarketData d).2 = (w2.processDepthMarketData d).2 := by
  unfold MarketWatcher.processDepthMarketData
  rw [h]
  exact processLoop_emitted w1 w2 d _ _

/-- After a sequence of ticks with persistence on, the buffer of an
instrument is extended by its accepted ticks, in arrival order. -/
theorem processAll_spec (ticks : List CThostFtdcDepthMarketDataField) (w : MarketWatcher)
    (a : String) (hsave : w.saveDepthMarketData = true) :
    (w.processAll ticks).depthMarketDataListMap a =
      w.depthMarketDataListMap a ++
        ticks.filter (fun d => decide (d.InstrumentID = a ∧ (w.processDepthMarketData d).2 ≠ [])) ∧
    (w.processAll ticks).saveDepthMarketDataPath = w.saveDepthMarketDataPath ∧
    (w.processAll ticks).subscribeSet = w.subscribeSet ∧
    (w.processAll ticks).instrumentsToSave = w.instrumentsToSave := by
  induction ticks generalizing w with
  | nil => simp [MarketWatcher.processAll]
  | cons d rest ih =>
    obtain ⟨_, hupd, hsame, hflag, hpath, hsub, httm, hits, _⟩ :=
      processDepthMarketData_effect w d
    obtain ⟨h1, h2, h3, h4⟩ := ih (w.processDepthMarketData d).1 (by rw [hflag, hsave])
    have hcongr : ∀ e : CThostFtdcDepthMarketDataField,
        ((w.processDepthMarketData d).1.processDepthMarketData e).2 =
          (w.processDepthMarketData e).2 :=
      fun e => processDepthMarketData_emitted_congr _ _ e httm
    simp only [MarketWatcher.processAll]
    refine ⟨?_, by rw [h2, hpath], by rw [h3, hsub], by rw [h4, hits]⟩
    rw [h1]
    simp only [hcongr]
    by_cases hacc : (w.processDepthMarketData d).2 ≠ []
    · rw [hupd ⟨hacc, hsave⟩]
      by_cases hid : d.InstrumentID = a
      · subst hid
        simp [List.filter_cons, hacc]
      · have hne : a ≠ d.InstrumentID := fun e => hid e.symm
        simp [List.filter_cons, hid, Function.update_noteq hne]
    · rw [hsame (fun h => hacc h.1)]
      simp [List.filter_cons, hacc]


/-- C8. With persistence enabled, let instrument `a` be subscribed and in
cohort `i`, with an empty buffer (as a flush leaves it), and let any sequence
of ticks arrive. Then `saveDepthMarketDataToFile i` writes for `a` exactly
the ticks of the sequence accepted for `a`, in arrival order, in one file,
and no file when there is none; it leaves the buffer of `a` empty; and a
second `saveDepthMarketDataToFile i` before any new tick writes nothing and
changes nothing. -/
theorem saveDepthMarketDataToFile_flush (now later : String → String) (w : MarketWatcher)
    (a : String) (i : Nat) (cohort : List String)
    (ticks : List CThostFtdcDepthMarketDataField)
    (hsave : w.saveDepthMarketData = true)
    (hcohort : w.instrumentsToSave[i]? = some cohort) (ha : a ∈ cohort)
    (hsub : a ∈ w.subscribeSet) (hempty : w.depthMarketDataListMap a = []) :
    ∃ (w2 : MarketWatcher) (writes : List FileWrite),
      (w.processAll ticks).saveDepthMarketDataToFile now i = some (w2, writes) ∧
      writes.filter (fun f => decide (f.instrumentID = a)) =
        (if ticks.filter
              (fun d => decide (d.InstrumentID = a ∧ (w.processDepthMarketData d).2 ≠ [])) = []
          then []
          else [⟨a, w.saveDepthMarketDataPath ++ "/" ++ a ++ "/" ++ now a ++ ".data",
                ticks.filter
                  (fun d =>
                    decide (d.InstrumentID = a ∧ (w.processDepthMarketData d).2 ≠ []))⟩]) ∧
      w2.depthMarketDataListMap a = [] ∧
      w2.saveDepthMarketDataToFile later i = some (w2, []) := by
  obtain ⟨hbuf, hpath, hsubs, hits⟩ := processAll_spec ticks w a hsave
  rw [hempty, List.nil_append] at hbuf
  have hc1 : (w.processAll ticks).instrumentsToSave[i]? = some cohort := by rw [hits, hcohort]
  obtain ⟨hb, ⟨fp, fs, fi⟩, hw⟩ := saveLoop_spec now cohort (w.processAll ticks).subscribeSet
    (w.processAll ticks, []) a
  refine ⟨((w.processAll ticks).subscribeSet.foldl (saveStep now cohort)
      (w.processAll ticks, [])).1,
    ((w.processAll ticks).subscribeSet.foldl (saveStep now cohort)
      (w.processAll ticks, [])).2, ?_, ?_, ?_, ?_⟩
  · unfold MarketWatcher.saveDepthMarketDataToFile
    rw [hc1]
  · rw [hw]
    dsimp only
    rw [hbuf, hpath, hsubs]
    generalize ticks.filter
      (fun d => decide (d.InstrumentID = a ∧ (w.processDepthMarketData d).2 ≠ [])) = accepted
    by_cases hn : accepted = []
    · simp [hn]
    · simp [hn, hsub, ha]
  · rw [hb a, if_pos ⟨by rw [hsubs]; exact hsub, ha⟩]
  · unfold MarketWatcher.saveDepthMarketDataToFile
    rw [fi]
    simp only [hc1]
    rw [saveLoop_noop]
    intro y hy hyc
    rw [fs] at hy
    rw [hb y, if_pos ⟨hy, hyc⟩]

/-- Witness for C8: two accepted ticks and a rejected one for `rb1801`, and
an accepted tick of another instrument in between. -/
theorem saveDepthMarketDataToFile_flush_witness :
    ∃ (w2 : MarketWatcher) (writes : List FileWrite),
      (({ watcherWith true ["rb1801", "ag1806"]
            [("rb1801", [(QTime.ofHMS 9 0 0, QTime.ofHMS 15 0 0)]),
             ("ag1806", [(QTime.ofHMS 9 0 0, QTime.ofHMS 15 0 0)])] with
          instrumentsToSave := [["rb1801", "ag1806"]]
          saveBarTimePoints := [QTime.ofHMS 15 3 0] } : MarketWatcher).processAll
        [tickAt "rb1801" "09:00:00", tickAt "ag1806" "09:00:01", tickAt "rb1801" "08:00:00",
          tickAt "rb1801" "15:00:00"]).saveDepthMarketDataToFile
          (fun _ => "20180102_150300_000") 0 =
        some (w2, writes) ∧
      writes.filter (fun f => decide (f.instrumentID = "rb1801")) =
        [⟨"rb1801", "data/rb1801/20180102_150300_000.data",
          [tickAt "rb1801" "09:00:00", tickAt "rb1801" "15:00:00"]⟩] ∧
      w2.depthMarketDataListMap "rb1801" = [] ∧
      w2.saveDepthMarketDataToFile (fun _ => "20180102_150300_001") 0 = some (w2, []) := by
  obtain ⟨w2, writes, h1, h2, h3, h4⟩ :=
    saveDepthMarketDataToFile_flush (fun _ => "20180102_150300_000")
      (fun _ => "20180102_150300_001")
      ({ watcherWith true ["rb1801", "ag1806"]
            [("rb1801", [(QTime.ofHMS 9 0 0, QTime.ofHMS 15 0 0)]),
             ("ag1806", [(QTime.ofHMS 9 0 0, QTime.ofHMS 15 0 0)])] with
          instrumentsToSave := [["rb1801", "ag1806"]]
          saveBarTimePoints := [QTime.ofHMS 15 3 0] } : MarketWatcher)
      "rb1801" 0 ["rb1801", "ag1806"]
      [tickAt "rb1801" "09:00:00", tickAt "ag1806" "09:00:01", tickAt "rb1801" "08:00:00",
        tickAt "rb1801" "15:00:00"]
      rfl rfl (by decide) (by decide) rfl
  refine ⟨w2, writes, h1, ?_, h3, h4⟩
  rw [h2]
  decide

end LazzyQuant
